import Mathlib

/-!
Verification of the electrolyte-database (EDB) configuration-generation layer
of `proteuslib/edb/data_model.py`.

The Python module transforms JSON-like record dictionaries (components,
reactions, base configurations) into nested IDAES configuration dictionaries
and back.  We shallowly embed the JSON-like Python values as the inductive
type `Val`, Python exceptions as `PyErr`, and each transformation function of
the source as an executable Lean function over `Val` returning
`Except PyErr Val`.  Dictionaries are association lists preserving insertion
order, matching CPython's ordered-dict semantics used by the source.

Opaque external objects (pyomo unit objects produced by `_build_units`, and
IDAES framework objects such as `PhaseType.liquidPhase`, `Perrys`, `NIST`,
`fugacity`, `IComponent`) are modelled as tagged atoms (`Val.vunit`,
`Val.vobj`).  `_build_units` evaluates a unit-expression string against the
pyomo unit namespace; the pyomo library is outside this repository, so a
built unit object is modelled as an atom remembering its source string, with
`str()` of it returning that string, and every nonempty string accepted.
-/

inductive Val where
  | vnone
  | vstr (s : String)
  | vint (n : Int)
  | vtuple (xs : List Val)
  | vlist (xs : List Val)
  | vdict (kvs : List (Val × Val))
  | vunit (s : String)
  | vobj (tag : String)
  deriving Repr

namespace Val

mutual
/-- Structural (Python `==`) equality test on embedded values. -/
def beq : Val → Val → Bool
  | vnone, vnone => true
  | vstr a, vstr b => a == b
  | vint a, vint b => a == b
  | vtuple a, vtuple b => beqList a b
  | vlist a, vlist b => beqList a b
  | vdict a, vdict b => beqPairs a b
  | vunit a, vunit b => a == b
  | vobj a, vobj b => a == b
  | _, _ => false

/-- Elementwise equality of value lists. -/
def beqList : List Val → List Val → Bool
  | [], [] => true
  | x :: xs, y :: ys => beq x y && beqList xs ys
  | _, _ => false

/-- Elementwise equality of key-value pair lists. -/
def beqPairs : List (Val × Val) → List (Val × Val) → Bool
  | [], [] => true
  | (k, v) :: xs, (k', v') :: ys => beq k k' && beq v v' && beqPairs xs ys
  | _, _ => false
end

mutual
theorem beq_iff : ∀ a b : Val, beq a b = true ↔ a = b
  | vnone, b => by cases b <;> simp [beq]
  | vstr s, b => by cases b <;> simp [beq]
  | vint n, b => by cases b <;> simp [beq]
  | vtuple xs, b => by
      cases b <;> simp [beq]
      exact beqList_iff xs _
  | vlist xs, b => by
      cases b <;> simp [beq]
      exact beqList_iff xs _
  | vdict kvs, b => by
      cases b <;> simp [beq]
      exact beqPairs_iff kvs _
  | vunit s, b => by cases b <;> simp [beq]
  | vobj t, b => by cases b <;> simp [beq]

theorem beqList_iff : ∀ xs ys : List Val, beqList xs ys = true ↔ xs = ys
  | [], ys => by cases ys <;> simp [beqList]
  | x :: xs, ys => by
      cases ys with
      | nil => simp [beqList]
      | cons y ys => simp [beqList, beq_iff x y, beqList_iff xs ys]

theorem beqPairs_iff : ∀ xs ys : List (Val × Val), beqPairs xs ys = true ↔ xs = ys
  | [], ys => by cases ys <;> simp [beqPairs]
  | (k, v) :: xs, ys => by
      cases ys with
      | nil => simp [beqPairs]
      | cons p ys =>
        obtain ⟨k', v'⟩ := p
        simp [beqPairs, beq_iff k k', beq_iff v v', beqPairs_iff xs ys, Prod.ext_iff]
end

instance : DecidableEq Val := fun a b =>
  decidable_of_iff (beq a b = true) (beq_iff a b)

end Val

open Val

/-- Python exceptions raised (or propagated) by the data-model code. -/
inductive PyErr where
  | keyError (k : Val)
  | typeError (msg : String)
  | attributeError (msg : String)
  | valueError (msg : String)
  | indexError
  | nameError (msg : String)
  | assertionError (msg : String)
  | runtimeError (msg : String)
  | configGeneratorError (msg : String)
  | badConfiguration (caller : String) (msg : String)
  deriving Repr, DecidableEq

/-! ### Ordered-dictionary primitives (CPython `dict` semantics) -/

/-- First value bound to `k`, scanning in insertion order. -/
def dictLookup (kvs : List (Val × Val)) (k : Val) : Option Val :=
  match kvs with
  | [] => none
  | (k', v) :: rest => if k' = k then some v else dictLookup rest k

/-- Python `k in d`. -/
def dictHasKey (kvs : List (Val × Val)) (k : Val) : Bool :=
  (dictLookup kvs k).isSome

/-- Python `d[k] = v`: replace in place if present, else append at the end. -/
def dictSet (kvs : List (Val × Val)) (k v : Val) : List (Val × Val) :=
  match kvs with
  | [] => [(k, v)]
  | (k', v') :: rest =>
      if k' = k then (k', v) :: rest else (k', v') :: dictSet rest k v

/-- Python `del d[k]` (also used for bulk deletions of marked keys). -/
def dictDel (kvs : List (Val × Val)) (k : Val) : List (Val × Val) :=
  kvs.filter (fun kv => kv.1 ≠ k)

/-- Python `d.update(src)`: set each binding of `src` in order. -/
def dictUpdate (dst src : List (Val × Val)) : List (Val × Val) :=
  src.foldl (fun d kv => dictSet d kv.1 kv.2) dst

/-- Keys of a dict in insertion order. -/
def dictKeys (kvs : List (Val × Val)) : List Val := kvs.map Prod.fst

/-! ### Python value primitives -/

/-- Python truthiness of an embedded value. -/
def truthy : Val → Bool
  | .vnone => false
  | .vstr s => !s.isEmpty
  | .vint n => n ≠ 0
  | .vtuple xs => !xs.isEmpty
  | .vlist xs => !xs.isEmpty
  | .vdict kvs => !kvs.isEmpty
  | .vunit _ => true
  | .vobj _ => true

/-- Python hashability: scalar atoms and tuples of hashables hash; lists and
dicts raise `TypeError` when used as dictionary keys. -/
def hashable : Val → Bool
  | .vnone => true
  | .vstr _ => true
  | .vint _ => true
  | .vunit _ => true
  | .vobj _ => true
  | .vtuple xs => go xs
  | .vlist _ => false
  | .vdict _ => false
where
  /-- Hashability of every element of a tuple. -/
  go : List Val → Bool
  | [] => true
  | x :: xs => hashable x && go xs

/-- Python `d[k] = v` on a `Val`: only dicts support key assignment, and the
key must be hashable. -/
def pySetItem (d : Val) (k v : Val) : Except PyErr Val :=
  match d with
  | .vdict kvs =>
      if hashable k then .ok (.vdict (dictSet kvs k v))
      else .error (.typeError "unhashable type")
  | _ => .error (.typeError "object does not support item assignment")

/-- Python subscript `d[k]`. -/
def pySubscript (d : Val) (k : Val) : Except PyErr Val :=
  match d with
  | .vdict kvs =>
      if hashable k then
        match dictLookup kvs k with
        | some v => .ok v
        | none => .error (.keyError k)
      else .error (.typeError "unhashable type")
  | .vlist xs =>
      match k with
      | .vint n =>
          match xs.get? n.toNat with
          | some v => if 0 ≤ n then .ok v else .error .indexError
          | none => .error .indexError
      | _ => .error (.typeError "list indices must be integers")
  | .vtuple xs =>
      match k with
      | .vint n =>
          match xs.get? n.toNat with
          | some v => if 0 ≤ n then .ok v else .error .indexError
          | none => .error .indexError
      | _ => .error (.typeError "tuple indices must be integers")
  | .vstr s =>
      match k with
      | .vint n =>
          match s.data.get? n.toNat with
          | some c => if 0 ≤ n then .ok (.vstr (String.mk [c])) else .error .indexError
          | none => .error .indexError
      | _ => .error (.typeError "string indices must be integers")
  | _ => .error (.typeError "object is not subscriptable")

/-- Python `d.get(k, default)`: only dicts have `.get`. -/
def pyGetDefault (d : Val) (k dflt : Val) : Except PyErr Val :=
  match d with
  | .vdict kvs =>
      if hashable k then .ok ((dictLookup kvs k).getD dflt)
      else .error (.typeError "unhashable type")
  | _ => .error (.attributeError "object has no attribute get")

/-- Python iteration `for x in v` (also `list(v)`): lists and tuples yield
their elements, dicts their keys, strings their characters. -/
def pyIterElems (v : Val) : Except PyErr (List Val) :=
  match v with
  | .vlist xs => .ok xs
  | .vtuple xs => .ok xs
  | .vdict kvs => .ok (dictKeys kvs)
  | .vstr s => .ok (s.data.map (fun c => Val.vstr (String.mk [c])))
  | _ => .error (.typeError "object is not iterable")

/-- Python `len(v)`. -/
def pyLen (v : Val) : Except PyErr Nat :=
  match v with
  | .vlist xs => .ok xs.length
  | .vtuple xs => .ok xs.length
  | .vdict kvs => .ok kvs.length
  | .vstr s => .ok s.length
  | _ => .error (.typeError "object has no len")

/-- Python membership `x in v`. -/
def pyContains (v x : Val) : Except PyErr Bool :=
  match v with
  | .vdict kvs =>
      if hashable x then .ok (dictHasKey kvs x)
      else .error (.typeError "unhashable type")
  | .vlist xs => .ok (xs.contains x)
  | .vtuple xs => .ok (xs.contains x)
  | _ => .error (.typeError "argument is not iterable")

/-- Python `d.items()`: only dicts have `.items`. -/
def dictItems (v : Val) : Except PyErr (List (Val × Val)) :=
  match v with
  | .vdict kvs => .ok kvs
  | _ => .error (.attributeError "object has no attribute items")

/-- Python `str(v)` as used on parameter units and tokens: a built unit object
renders as its originating expression string; strings render as themselves. -/
def pyStr : Val → String
  | .vunit s => s
  | .vstr s => s
  | .vint n => toString n
  | .vnone => "None"
  | .vobj t => t
  | .vtuple _ => "<tuple>"
  | .vlist _ => "<list>"
  | .vdict _ => "<dict>"

/-- Python `s.startswith(prefix)`, character by character. -/
def strStarts (s pre : String) : Bool := pre.data.isPrefixOf s.data

/-- Python `s.endswith(suffix)`, character by character. -/
def strEnds (s suf : String) : Bool := suf.data.isSuffixOf s.data

/-- Accumulate decimal digits; `none` on the first non-digit. -/
def digitsValAux : List Char → Nat → Option Nat
  | [], acc => some acc
  | c :: rest, acc =>
      if c.isDigit then digitsValAux rest (acc * 10 + (c.toNat - 48)) else none

/-- Python `int(s)` on a decimal string (optional leading minus); `none`
models the `ValueError` branch. -/
def pyInt? (s : String) : Option Int :=
  match s.data with
  | [] => none
  | '-' :: rest =>
      match rest with
      | [] => none
      | _ => (digitsValAux rest 0).map (fun n => -(n : Int))
  | cs => (digitsValAux cs 0).map (fun n => (n : Int))

/-! ### `ConfigGenerator._build_units` (data_model.py lines 135-147)

The source coerces falsy input to `"dimensionless"`, rewrites alphabetic runs
into pyomo-unit attribute accesses and evaluates the result.  Unit objects
are modelled as atoms carrying the (coerced) expression string; every
nonempty string is accepted, since validity of a unit expression is decided
by the external pyomo library.  Non-string truthy input fails inside `re.sub`
with `TypeError`, as in the source. -/
def build_units (x : Val) : Except PyErr Val :=
  if truthy x = false then .ok (.vunit "dimensionless")
  else
    match x with
    | .vstr s => .ok (.vunit s)
    | _ => .error (.typeError "expected string or bytes-like object")

/-! ### `ConfigGenerator._transform_parameter_data` (data_model.py lines 151-193) -/

/-- The `except (AttributeError, TypeError, ValueError)` clause wrapping the
extraction of `i` and `u` from a parameter-list item: those three exception
types are re-raised as `ConfigGeneratorError`; every other exception (in
particular `KeyError` from a missing key) propagates unchanged. -/
def catch_extract {α : Type} (comp_name : String) (r : Except PyErr α) : Except PyErr α :=
  match r with
  | .error (.attributeError _) =>
      .error (.configGeneratorError ("Cannot extract parameter. name=" ++ comp_name))
  | .error (.typeError _) =>
      .error (.configGeneratorError ("Cannot extract parameter. name=" ++ comp_name))
  | .error (.valueError _) =>
      .error (.configGeneratorError ("Cannot extract parameter. name=" ++ comp_name))
  | r => r

/-- Body of the per-item `try` block of the multi-element branch:
`index = item.get("i", 0); built_units = cls._build_units(item["u"])`. -/
def extract_param_item (comp_name : String) (item : Val) : Except PyErr (Val × Val) :=
  catch_extract comp_name (do
    let index ← pyGetDefault item (.vstr "i") (.vint 0)
    let u ← pySubscript item (.vstr "u")
    let bu ← build_units u
    pure (index, bu))

/-- The multi-element loop: `coeff_table[index] = (item["v"], built_units)`;
the read of `item["v"]` and the keyed store happen outside the `try` block. -/
def coeff_table_fold (comp_name : String) (items : List Val)
    (table : List (Val × Val)) : Except PyErr (List (Val × Val)) :=
  match items with
  | [] => .ok table
  | item :: rest => do
      let ib ← extract_param_item comp_name item
      let v ← pySubscript item (.vstr "v")
      if hashable ib.1 then
        coeff_table_fold comp_name rest (dictSet table ib.1 (.vtuple [v, ib.2]))
      else .error (.typeError "unhashable type")

/-- Inner loop of the `reaction_order` branch:
`for species, num in val[phase].items(): table[(phase, species)] = num`. -/
def flatten_phase_inner (phase : Val) (items : List (Val × Val))
    (table : List (Val × Val)) : Except PyErr (List (Val × Val)) :=
  match items with
  | [] => .ok table
  | (species, num) :: rest =>
      if hashable (.vtuple [phase, species]) then
        flatten_phase_inner phase rest (dictSet table (.vtuple [phase, species]) num)
      else .error (.typeError "unhashable type")

/-- Outer loop of the `reaction_order` branch: `for phase in val: ...`. -/
def flatten_phase_outer (val : Val) (phases : List Val)
    (table : List (Val × Val)) : Except PyErr (List (Val × Val)) :=
  match phases with
  | [] => .ok table
  | phase :: rest => do
      let sub ← pySubscript val phase
      let items ← dictItems sub
      let table' ← flatten_phase_inner phase items table
      flatten_phase_outer val rest table'

/-- Flattening of a two-level phase → (species → number) mapping into a
mapping keyed by `(phase, species)` tuples; used by the `reaction_order`
branch here and by the `stoichiometry` branch of `ReactionConfig._transform`
(the two loops in the source are textually identical in structure). -/
def flatten_phase_map (val : Val) : Except PyErr (List (Val × Val)) := do
  let phases ← pyIterElems val
  flatten_phase_outer val phases []

/-- Transformation of one `parameter_data` entry (the body of the
`for param_key in params` loop, lines 158-193). -/
def transform_parameter_entry (comp_name : String) (param_key val : Val) :
    Except PyErr Val :=
  if param_key = .vstr "reaction_order" then do
    let t ← flatten_phase_map val
    pure (.vdict t)
  else
    match pyLen val with
    | .error e => .error e
    | .ok n =>
      if 1 < n then do
        let items ← pyIterElems val
        let t ← coeff_table_fold comp_name items []
        pure (.vdict t)
      else do
        let item ← pySubscript val (.vint 0)
        let u ← pySubscript item (.vstr "u")
        let bu ← build_units u
        let v ← pySubscript item (.vstr "v")
        pure (.vtuple [v, bu])

/-- The `for param_key in params` loop: each entry's value is replaced in
place, keys and their order are unchanged. -/
def transform_parameter_entries (comp_name : String) :
    List (Val × Val) → Except PyErr (List (Val × Val))
  | [] => .ok []
  | (k, v) :: rest => do
      let v' ← transform_parameter_entry comp_name k v
      let rest' ← transform_parameter_entries comp_name rest
      pure ((k, v') :: rest')

/-- `ConfigGenerator._transform_parameter_data(comp)`: a falsy or absent
`parameter_data` only logs a warning and leaves `comp` unchanged; otherwise
each entry of the mapping is normalized in place.  A truthy non-mapping
`parameter_data` fails with `TypeError` (in the source, at its first
subscripted use). -/
def transform_parameter_data (comp : Val) : Except PyErr Val := do
  let nameV ← pyGetDefault comp (.vstr "name") (.vstr "?")
  let params ← pyGetDefault comp (.vstr "parameter_data") .vnone
  if truthy params = false then .ok comp
  else
    match params with
    | .vdict pkvs => do
        let pkvs' ← transform_parameter_entries (pyStr nameV) pkvs
        pySetItem comp (.vstr "parameter_data") (.vdict pkvs')
    | _ => .error (.typeError "parameter_data is not a mapping")

/-! ### `ConfigGenerator._substitute` (data_model.py lines 250-351) -/

/-- Does `f` accept some suffix of the list?  (Used for `*` backtracking.) -/
def matchSuffixes (f : List Char → Bool) : List Char → Bool
  | [] => f []
  | c :: ss => f (c :: ss) || matchSuffixes f ss

/-- Shell-style glob match (`fnmatch.fnmatchcase`), restricted to the `*`
wildcard: every pattern appearing in the module's substitution tables uses
only literal characters and `*`. -/
def globMatch : List Char → List Char → Bool
  | [], s => s.isEmpty
  | '*' :: ps, s => matchSuffixes (globMatch ps) s
  | c :: ps, s => match s with
      | [] => false
      | c' :: ss => c == c' && globMatch ps ss

/-- `fnmatchcase(name, pat)` on strings. -/
def fnmatch_case (name pat : String) : Bool := globMatch pat.data name.data

/-- Python `"*" in sv_key` (line 329). -/
def hasStar (s : String) : Bool := s.data.contains '*' 

/-- A value of a class-level `substitute_values` table: either a literal
token → object mapping, or the `SUBST_UNITS` sentinel meaning "evaluate the
string as a unit expression". -/
inductive SubstSpec where
  | table (m : List (Val × Val))
  | units
  deriving Repr, DecidableEq

/-- Substitution of a single element: a literal table maps a (hashable)
element that occurs as a key, and the unit sentinel converts string elements
only (already-built unit objects pass through).  `none` means "leave the
element unchanged". -/
def subst_one (subst : SubstSpec) (x : Val) : Except PyErr (Option Val) :=
  match subst with
  | .table m =>
      if hashable x then .ok (dictLookup m x)
      else .error (.typeError "unhashable type")
  | .units =>
      match x with
      | .vstr s => do
          let u ← build_units (.vstr s)
          pure (some u)
      | _ => .ok none

/-- The element loop of `substitute_value`, returning the new list and the
number of substituted elements. -/
def subst_list (subst : SubstSpec) : List Val → Except PyErr (List Val × Nat)
  | [] => .ok ([], 0)
  | x :: xs => do
      let nv ← subst_one subst x
      let rest ← subst_list subst xs
      match nv with
      | none => pure (x :: rest.1, rest.2)
      | some v => pure (v :: rest.1, rest.2 + 1)

/-- `substitute_value(d, subst, key)` (lines 257-297): a scalar value
(string/int/float) is treated as a one-element list and unwrapped again; any
other value is converted with `list(...)` and stored back as a list.  Returns
the updated dict and whether every element was substituted. -/
def substitute_value (kvs : List (Val × Val)) (subst : SubstSpec) (key : Val) :
    Except PyErr (List (Val × Val) × Bool) := do
  let v ← match dictLookup kvs key with
          | some v => pure v
          | none => .error (.keyError key)
  match v with
  | .vstr _ | .vint _ => do
      let r ← subst_list subst [v]
      pure (dictSet kvs key (r.1.headD v), r.2 == r.1.length)
  | _ => do
      let strs ← pyIterElems v
      let r ← subst_list subst strs
      pure (dictSet kvs key (.vlist r.1), r.2 == r.1.length)

/-- `stringish(x)` (lines 299-308).  The loop tests `isinstance(x, str)` on
the *container* `x` rather than on each item, so any non-empty list or tuple
is classified as non-stringish regardless of its elements, and an empty
list or tuple is classified as stringish. -/
def stringish (x : Val) : Bool :=
  match x with
  | .vstr _ => true
  | .vlist xs => xs.isEmpty
  | .vtuple xs => xs.isEmpty
  | _ => false

/-- Key list `[k for k in data_section if fnmatchcase(k, sv_key)]`;
`fnmatchcase` on a non-string key fails with `TypeError`. -/
def collect_matches (keys : List Val) (pat : String) : Except PyErr (List Val) :=
  match keys with
  | [] => .ok []
  | k :: ks =>
      match k with
      | .vstr s => do
          let rest ← collect_matches ks pat
          pure (if fnmatch_case s pat then k :: rest else rest)
      | _ => .error (.typeError "fnmatch name must be a string")

/-- The wildcard branch's loop over matched keys (lines 331-341): keys whose
current value is not stringish are skipped; partial substitutions only log a
warning. -/
def subst_wildcard (kvs : List (Val × Val)) (spec : SubstSpec) :
    List Val → Except PyErr (List (Val × Val))
  | [] => .ok kvs
  | k :: ks =>
      match dictLookup kvs k with
      | none => .error (.keyError k)
      | some v =>
          if stringish v = false then subst_wildcard kvs spec ks
          else do
            let r ← substitute_value kvs spec k
            subst_wildcard r.1 spec ks

/-- Substitution at the terminal dict of a dotted path: wildcard keys allow
multiple substitutions, a plain key performs zero or one. -/
def subst_in_dict (kvs : List (Val × Val)) (svKey : String) (spec : SubstSpec) :
    Except PyErr (List (Val × Val)) :=
  if hasStar svKey then do
    let m ← collect_matches (dictKeys kvs) svKey
    subst_wildcard kvs spec m
  else
    if dictHasKey kvs (.vstr svKey) then do
      let r ← substitute_value kvs spec (.vstr svKey)
      pure r.1
    else .ok kvs

/-- Walk of the dotted path (lines 314-326): descend through nested dicts,
silently stopping when an intermediate segment is absent or a non-dict. -/
def subst_path (data : Val) (path : List String) (spec : SubstSpec) :
    Except PyErr Val :=
  match path with
  | [] => .ok data
  | [k] =>
      match data with
      | .vdict kvs => do
          let kvs' ← subst_in_dict kvs k spec
          pure (.vdict kvs')
      | _ => .ok data
  | k :: rest =>
      match data with
      | .vdict kvs =>
          match dictLookup kvs (.vstr k) with
          | some sub => do
              let sub' ← subst_path sub rest spec
              pure (.vdict (dictSet kvs (.vstr k) sub'))
          | none => .ok data
      | _ => .ok data

/-- Python `sv_section.split(".")`, character by character. -/
def splitDotsAux : List Char → List Char → List String
  | [], acc => [String.mk acc.reverse]
  | '.' :: rest, acc => String.mk acc.reverse :: splitDotsAux rest []
  | c :: rest, acc => splitDotsAux rest (c :: acc)

/-- Python `sv_section.split(".")` (line 315). -/
def splitDots (s : String) : List String := splitDotsAux s.data []

/-- `ConfigGenerator._substitute(data)`: process each section of the class's
`substitute_values` table in declaration order. -/
def substitute (sv : List (String × SubstSpec)) (data : Val) : Except PyErr Val :=
  match sv with
  | [] => .ok data
  | (sec, spec) :: rest => do
      let data' ← subst_path data (splitDots sec) spec
      substitute rest data'

/-! ### `ConfigGenerator._wrap_section` and `_remove_special` (lines 206-248) -/

/-- Python `del d[k]`. -/
def pyDelItem (d : Val) (k : Val) : Except PyErr Val :=
  match d with
  | .vdict kvs =>
      if hashable k then
        if dictHasKey kvs k then .ok (.vdict (dictDel kvs k))
        else .error (.keyError k)
      else .error (.typeError "unhashable type")
  | _ => .error (.typeError "object does not support item deletion")

/-- The loop of `_remove_special`: delete keys starting with an underscore
and the key `name`; `key.startswith` on a non-string key fails. -/
def remove_special_go : List (Val × Val) → Except PyErr (List (Val × Val))
  | [] => .ok []
  | (k, v) :: rest =>
      match k with
      | .vstr s => do
          let rest' ← remove_special_go rest
          pure (if strStarts s "_" || s == "name" then rest' else (k, v) :: rest')
      | _ => .error (.attributeError "key has no attribute startswith")

/-- `ConfigGenerator._remove_special(data)` (lines 243-248). -/
def remove_special (data : Val) : Except PyErr Val :=
  match data with
  | .vdict kvs => do
      let kvs' ← remove_special_go kvs
      pure (.vdict kvs')
  | _ => .error (.attributeError "object has no attribute keys")

/-- The fields never copied into the wrapped entry (line 224-232). -/
def wrap_excluded (sect : String) (k : Val) : Bool :=
  k == .vstr "name" || k == .vstr "base_units" || k == .vstr "reaction_type" ||
  k == .vstr "components" || k == .vstr "reactant_elements" ||
  k == .vstr sect || k == .vstr "_id"

/-- The top-level fields kept after wrapping (line 235). -/
def wrap_kept (sect : String) (k : Val) : Bool :=
  k == .vstr "base_units" || k == .vstr sect

/-- `ConfigGenerator._wrap_section(section, data)` (lines 206-241): move all
non-special fields of `data` under `data[section][data["name"]]`, assert the
entry does not already exist, then delete the moved fields and strip the
remaining special keys. -/
def wrap_section (sect : String) (data : Val) : Except PyErr Val := do
  let comp_name ← pySubscript data (.vstr "name")
  let hasSec ← pyContains data (.vstr sect)
  let data ← if hasSec then pure data else pySetItem data (.vstr sect) (.vdict [])
  let secval ← pySubscript data (.vstr sect)
  let mem ← pyContains secval comp_name
  if mem then .error (.assertionError "trying to add existing component")
  else do
    let secval' ← pySetItem secval comp_name (.vdict [])
    let data ← pySetItem data (.vstr sect) secval'
    let kvs ← dictItems data
    let entry := kvs.filter (fun kv => !wrap_excluded sect kv.1)
    let kvsKept := kvs.filter (fun kv => wrap_kept sect kv.1)
    let secKvs := match secval' with | .vdict s => s | _ => []
    let result := kvsKept.map (fun kv =>
      if kv.1 = .vstr sect then
        (kv.1, Val.vdict (dictSet secKvs comp_name (.vdict entry)))
      else kv)
    remove_special (.vdict result)

/-! ### The three concrete generators (data_model.py lines 354-439) -/

/-- The `valid_phase_types` token table of `ThermoConfig.substitute_values`. -/
def vptTable : List (Val × Val) := [
  (.vstr "PT.liquidPhase", .vobj "PhaseType.liquidPhase"),
  (.vstr "PT.solidPhase", .vobj "PhaseType.solidPhase"),
  (.vstr "PT.vaporPhase", .vobj "PhaseType.vaporPhase"),
  (.vstr "PT.aqueousPhase", .vobj "PhaseType.aqueousPhase")]

/-- The `*_comp` token table of `ThermoConfig.substitute_values`. -/
def compTable : List (Val × Val) :=
  [(.vstr "Perrys", .vobj "Perrys"), (.vstr "NIST", .vobj "NIST")]

/-- The `phase_equilibrium_form.*` token table of
`ThermoConfig.substitute_values`. -/
def pefTable : List (Val × Val) := [(.vstr "fugacity", .vobj "fugacity")]

/-- `ThermoConfig.substitute_values` (lines 356-370). -/
def thermoSubstituteValues : List (String × SubstSpec) := [
  ("valid_phase_types", .table vptTable),
  ("*_comp", .table compTable),
  ("phase_equilibrium_form.*", .table pefTable)]

/-- `ThermoConfig._transform(data)` (lines 372-381). -/
def ThermoConfig.transform (data : Val) : Except PyErr Val := do
  let data ← transform_parameter_data data
  let data ← substitute thermoSubstituteValues data
  let hasElts ← pyContains data (.vstr "elements")
  let data ← if hasElts then pyDelItem data (.vstr "elements") else pure data
  let data ← pySetItem data (.vstr "type") (.vobj "IComponent")
  wrap_section "components" data

/-- `ReactionConfig.substitute_values` (lines 386-395). -/
def reactionSubstituteValues : List (String × SubstSpec) := [
  ("heat_of_reaction", .table [(.vstr "constant_dh_rxn", .vobj "constant_dh_rxn")]),
  ("*_form", .table [(.vstr "log_power_law", .vobj "log_power_law"),
                     (.vstr "ConcentrationForm.molarity", .vobj "ConcentrationForm.molarity")]),
  ("*_constant", .table [(.vstr "van_t_hoff_aqueous", .vobj "van_t_hoff_aqueous"),
                         (.vstr "van_t_hoff", .vobj "van_t_hoff")])]

/-- The `for key, value in data.items()` loop of `ReactionConfig._transform`
(lines 404-413): reformat the value under `stoichiometry` to tuple keys. -/
def reformat_stoichiometry : List (Val × Val) → Except PyErr (List (Val × Val))
  | [] => .ok []
  | (k, v) :: rest =>
      if k = .vstr "stoichiometry" then do
        let t ← flatten_phase_map v
        let rest' ← reformat_stoichiometry rest
        pure ((k, Val.vdict t) :: rest')
      else do
        let rest' ← reformat_stoichiometry rest
        pure ((k, v) :: rest')

/-- `ReactionConfig._transform(data)` (lines 397-422): any reaction type
other than `"equilibrium"` raises `RuntimeError`. -/
def ReactionConfig.transform (data : Val) : Except PyErr Val := do
  let data ← transform_parameter_data data
  let kvs ← dictItems data
  let kvs ← reformat_stoichiometry kvs
  let data ← substitute reactionSubstituteValues (.vdict kvs)
  let rt ← pySubscript data (.vstr "type")
  let data ← pyDelItem data (.vstr "type")
  if rt = .vstr "equilibrium" then wrap_section "equilibrium_reactions" data
  else .error (.runtimeError "Unexpected reaction type while generating config")

/-- `BaseConfig.substitute_values` (lines 428-433). -/
def baseSubstituteValues : List (String × SubstSpec) := [
  ("state_definition", .table [(.vstr "FTPx", .vobj "FTPx")]),
  ("phases.Liq.type", .table [(.vstr "LiquidPhase", .vobj "LiquidPhase")]),
  ("phases.Liq.equation_of_state", .table [(.vstr "Ideal", .vobj "Ideal")]),
  ("base_units.*", .units)]

/-- `BaseConfig._transform(data)` (lines 435-438). -/
def BaseConfig.transform (data : Val) : Except PyErr Val := do
  let data ← substitute baseSubstituteValues data
  remove_special data

/-- `DataWrapper.json_data` (lines 478-484): shallow copy of the raw record
with the identity field `_id` stripped. -/
def json_data (data : Val) : Except PyErr Val :=
  match data with
  | .vdict kvs => .ok (.vdict (dictDel kvs (.vstr "_id")))
  | _ => .error (.attributeError "object has no attribute copy")

/-! ### `DataWrapper` inverse helpers (data_model.py lines 500-558) -/

/-- `DataWrapper._method_to_str(fld, src, tgt, subst, required, default)`
(lines 500-522): map a framework object back to its stored token via the
inverse substitution table; a missing mapping uses `default` or is fatal. -/
def method_to_str (fld : Val) (src : Val) (tgt : List (Val × Val))
    (subst : List (Val × Val)) (required : Bool) (dflt : Option Val)
    (caller : String) : Except PyErr (List (Val × Val)) := do
  let has ← pyContains src fld
  if has then do
    let value ← pySubscript src fld
    if hashable value then
      match dictLookup subst value with
      | some s => pure (dictSet tgt fld s)
      | none =>
          match dflt with
          | some d => pure (dictSet tgt fld d)
          | none => .error (.badConfiguration caller ("Unknown value for " ++ pyStr fld))
    else .error (.typeError "unhashable type")
  else
    if required then .error (.badConfiguration caller ("missing " ++ pyStr fld))
    else pure tgt

/-- Inverse mapping of a generator's `substitute_values` tables
(object → token), as built at the top of `from_idaes_config`
(lines 585-588 and 645-648); later entries overwrite earlier ones. -/
def invert_subst_values (sv : List (String × SubstSpec)) : List (Val × Val) :=
  sv.foldl (fun acc sec =>
    match sec.2 with
    | .table m => m.foldl (fun a kv => dictSet a kv.2 kv.1) acc
    | .units => acc) []

/-- The scalar-keyed inner loop of `_convert_parameter_data` (lines 542-554):
each `(i, value2)` becomes `{"i": int(i) if possible else i, "v": value2[0],
"u": str(value2[1])}`; a key that is neither string nor int is fatal. -/
def convert_param_entry_list (caller : String) :
    List (Val × Val) → Except PyErr (List Val)
  | [] => .ok []
  | (i, v2) :: rest => do
      let i' ← match i with
               | .vstr s =>
                   pure (match pyInt? s with | some n => Val.vint n | none => Val.vstr s)
               | .vint n => pure (Val.vint n)
               | _ => .error (.badConfiguration caller "Unexpected key type in parameter_data")
      let v20 ← pySubscript v2 (.vint 0)
      let v21 ← pySubscript v2 (.vint 1)
      let rest' ← convert_param_entry_list caller rest
      pure (Val.vdict [(.vstr "i", i'), (.vstr "v", v20),
                       (.vstr "u", .vstr (pyStr v21))] :: rest')

/-- The `for param, value in pd.items()` loop of `_convert_parameter_data`
(lines 529-557): a bare tuple becomes a one-item list without `i`; a
tuple-keyed mapping is dropped (`reaction_order` by design, anything else
because no other tuple-keyed parameter is implemented); a scalar-keyed
mapping becomes an indexed list; anything else is fatal. -/
def convert_parameter_entries (caller : String) :
    List (Val × Val) → Except PyErr (List (Val × Val))
  | [] => .ok []
  | (param, value) :: rest => do
      let entry ←
        match value with
        | .vtuple xs => do
            let v0 ← pySubscript (.vtuple xs) (.vint 0)
            let v1 ← pySubscript (.vtuple xs) (.vint 1)
            pure (some (Val.vlist [.vdict [(.vstr "v", v0),
                                           (.vstr "u", .vstr (pyStr v1))]]))
        | .vdict kvs =>
            match kvs.head? with
            | some (Val.vtuple _, _) => pure none
            | some _ => do
                let lst ← convert_param_entry_list caller kvs
                pure (some (Val.vlist lst))
            | none => .error (.badConfiguration caller "Unexpected value type for parameter_data")
        | _ => .error (.badConfiguration caller "Unexpected value type for parameter_data")
      let rest' ← convert_parameter_entries caller rest
      pure (match entry with | some d => (param, d) :: rest' | none => rest')

/-- `DataWrapper._convert_parameter_data(src, tgt)` (lines 524-558). -/
def convert_parameter_data (src : Val) (tgt : List (Val × Val))
    (caller : String) : Except PyErr (List (Val × Val)) := do
  let has ← pyContains src (.vstr "parameter_data")
  if has = false then .error (.badConfiguration caller "missing parameter_data")
  else do
    let pd ← pySubscript src (.vstr "parameter_data")
    let pdkvs ← dictItems pd
    let entries ← convert_parameter_entries caller pdkvs
    pure (dictSet tgt (.vstr "parameter_data") (.vdict entries))

/-! ### `Component` (data_model.py lines 561-618) -/

/-- `Component.__init__` requires a `name` key (lines 565-576). -/
def Component.init (data : Val) : Except PyErr Val := do
  let has ← pyContains data (.vstr "name")
  if has then .ok data else .error (.keyError (.vstr "name"))

/-- First access to `Component(...).idaes_config` (lines 466-476):
generate the fragment with `ThermoConfig`. -/
def Component.idaes_config (data : Val) : Except PyErr Val :=
  ThermoConfig.transform data

/-- The `for phase in key` loop of the `phase_equilibrium_form` block
(lines 614-615): each phase maps back via `_method_to_str(phase,
{phase: value}, d[fld], subst_strings)`. -/
def pef_phase_loop (value : Val) (subst : List (Val × Val))
    (inner : List (Val × Val)) : List Val → Except PyErr (List (Val × Val))
  | [] => .ok inner
  | phase :: rest => do
      if hashable phase then do
        let inner' ← method_to_str phase (.vdict [(phase, value)]) inner subst
          false none "Component.from_idaes_config"
        pef_phase_loop value subst inner' rest
      else .error (.typeError "unhashable type")

/-- The `for fld in c: if fld.endswith("_comp")` loop (lines 606-608). -/
def comp_fields_loop (c : Val) (subst : List (Val × Val))
    (d : List (Val × Val)) : List Val → Except PyErr (List (Val × Val))
  | [] => .ok d
  | fld :: rest =>
      match fld with
      | .vstr s =>
          if strEnds s "_comp" then do
            let d' ← method_to_str fld c d subst false none "Component.from_idaes_config"
            comp_fields_loop c subst d' rest
          else comp_fields_loop c subst d rest
      | _ => .error (.attributeError "no attribute endswith")

/-- Reconstruction of one entry of `config["components"]` (body of the loop
of `Component.from_idaes_config`, lines 593-617). -/
def component_entry (subst : List (Val × Val)) (name c : Val) :
    Except PyErr Val := do
  let d := [(Val.vstr "name", name)]
  let hasType ← pyContains c (.vstr "type")
  if hasType = false then
    .error (.badConfiguration "Component.from_idaes_config" "missing type")
  else do
    let tv ← pySubscript c (.vstr "type")
    if tv ≠ .vobj "IComponent" then
      .error (.badConfiguration "Component.from_idaes_config" "Bad value for type")
    else do
      let d ← method_to_str (.vstr "valid_phase_types") c d subst false none
        "Component.from_idaes_config"
      let cKeys ← pyIterElems c
      let d ← comp_fields_loop c subst d cKeys
      let hasPef ← pyContains c (.vstr "phase_equilibrium_form")
      let d ← if hasPef then do
          let pef ← pySubscript c (.vstr "phase_equilibrium_form")
          let d := dictSet d (.vstr "phase_equilibrium_form") (.vdict [])
          let items ← dictItems pef
          match items.head? with
          | none => .error (.nameError "key")
          | some kv => do
              let phases ← pyIterElems kv.1
              let inner ← pef_phase_loop kv.2 subst [] phases
              pure (dictSet d (.vstr "phase_equilibrium_form") (.vdict inner))
        else pure d
      let d ← convert_parameter_data c d "unknown"
      pure (.vdict d)

/-- The `for name, c in config["components"].items()` loop, appending
`Component(d)` for each entry (lines 593-617). -/
def component_entries_loop (subst : List (Val × Val)) :
    List (Val × Val) → Except PyErr (List Val)
  | [] => .ok []
  | (name, c) :: rest => do
      let d ← component_entry subst name c
      let d ← Component.init d
      let rest' ← component_entries_loop subst rest
      pure (d :: rest')

/-- `Component.from_idaes_config(config)` (lines 578-618), returning the
wrapped data records of the resulting Component list. -/
def Component.from_idaes_config (config : Val) : Except PyErr (List Val) := do
  let subst := invert_subst_values thermoSubstituteValues
  let hasComps ← pyContains config (.vstr "components")
  if hasComps = false then
    .error (.badConfiguration "Component.from_idaes_config" "missing components")
  else do
    let compsv ← pySubscript config (.vstr "components")
    let comps ← dictItems compsv
    component_entries_loop subst comps

/-! ### `Reaction._convert_stoichiometry` (data_model.py lines 669-678) -/

/-- Python tuple unpacking `phase, species = key`. -/
def pyUnpack2 (v : Val) : Except PyErr (Val × Val) := do
  let xs ← pyIterElems v
  match xs with
  | [a, b] => .ok (a, b)
  | _ :: _ :: _ :: _ => .error (.valueError "too many values to unpack")
  | _ => .error (.valueError "not enough values to unpack")

/-- The loop of `_convert_stoichiometry`: regroup `(phase, species) → n`
into `phase → (species → n)`. -/
def convert_stoichiometry_go :
    List (Val × Val) → List (Val × Val) → Except PyErr (List (Val × Val))
  | [], acc => .ok acc
  | (key, value) :: rest, acc => do
      let pv ← pyUnpack2 key
      if hashable pv.1 = false then .error (.typeError "unhashable type")
      else
        match dictLookup acc pv.1 with
        | some (Val.vdict inner) =>
            if hashable pv.2 then
              convert_stoichiometry_go rest
                (dictSet acc pv.1 (.vdict (dictSet inner pv.2 value)))
            else .error (.typeError "unhashable type")
        | some _ => .error (.typeError "object does not support item assignment")
        | none =>
            if hashable pv.2 then
              convert_stoichiometry_go rest (dictSet acc pv.1 (.vdict [(pv.2, value)]))
            else .error (.typeError "unhashable type")

/-- `Reaction._convert_stoichiometry(src, tgt)` (lines 669-678). -/
def convert_stoichiometry (src : Val) (tgt : List (Val × Val)) :
    Except PyErr (List (Val × Val)) := do
  let items ← dictItems src
  let data ← convert_stoichiometry_go items []
  pure (dictSet tgt (.vstr "stoichiometry") (.vdict data))

/-! ### `Base` and merging (data_model.py lines 681-723) -/

/-- An item added to a `Base`: a `Component` or `Reaction` wrapper holding
its raw record. -/
inductive WrapItem where
  | comp (data : Val)
  | rxn (data : Val)
  deriving Repr, DecidableEq

/-- `item.idaes_config` of an added wrapper (first access; the source caches
the identical value afterwards). -/
def WrapItem.idaes_config : WrapItem → Except PyErr Val
  | .comp d => ThermoConfig.transform d
  | .rxn d => ReactionConfig.transform d

/-- Class-level `merge_keys` (lines 563 and 623). -/
def WrapItem.merge_keys : WrapItem → List String
  | .comp _ => ["components"]
  | .rxn _ => ["equilibrium_reactions", "rate_reactions"]

/-- One iteration of the `for key in src.merge_keys` loop of `Base._merge`
(lines 716-722): a key present in both sides is shallow-updated
(`dst[key].update(src_config[key])`), a key only in the source is bound
directly. -/
def merge_one_key (dst srcCfg : Val) (key : String) : Except PyErr Val := do
  let hasSrc ← pyContains srcCfg (.vstr key)
  if hasSrc = false then pure dst
  else do
    let hasDst ← pyContains dst (.vstr key)
    let sv ← pySubscript srcCfg (.vstr key)
    if hasDst then do
      let dv ← pySubscript dst (.vstr key)
      match dv, sv with
      | .vdict dkvs, .vdict skvs =>
          pySetItem dst (.vstr key) (.vdict (dictUpdate dkvs skvs))
      | .vdict _, _ => .error (.typeError "update argument is not a mapping")
      | _, _ => .error (.attributeError "object has no attribute update")
    else pySetItem dst (.vstr key) sv

/-- The merge-key loop of `Base._merge(dst, src)`. -/
def merge_keys_loop (dst srcCfg : Val) : List String → Except PyErr Val
  | [] => .ok dst
  | k :: ks => do
      let dst' ← merge_one_key dst srcCfg k
      merge_keys_loop dst' srcCfg ks

/-- `Base._merge(dst, src)` (lines 712-723). -/
def Base.merge (dst : Val) (src : WrapItem) : Except PyErr Val := do
  let srcCfg ← src.idaes_config
  merge_keys_loop dst srcCfg src.merge_keys

/-- The `for item in self._to_merge` replay loop of `Base.idaes_config`. -/
def merge_added (cfg : Val) : List WrapItem → Except PyErr Val
  | [] => .ok cfg
  | it :: rest => do
      let cfg' ← Base.merge cfg it
      merge_added cfg' rest

/-- First read of `Base.idaes_config` (lines 695-710) for a freshly
constructed `Base` (dirty, no cached config) whose pending queue holds
`added` in `add()` order: generate the base's own config with `BaseConfig`,
then merge each queued item in order. -/
def Base.idaes_config (baseData : Val) (added : List WrapItem) :
    Except PyErr Val := do
  let cfg ← BaseConfig.transform baseData
  merge_added cfg added

/-! ### General lemmas about the embedding -/

@[simp] theorem ok_bind {ε α β : Type} (a : α) (f : α → Except ε β) :
    (Except.ok a : Except ε α) >>= f = f a := rfl

@[simp] theorem error_bind {ε α β : Type} (e : ε) (f : α → Except ε β) :
    (Except.error e : Except ε α) >>= f = .error e := rfl

theorem exbind_ok {ε α β : Type} {e : Except ε α} {f : α → Except ε β} {b : β} :
    e >>= f = .ok b ↔ ∃ a, e = .ok a ∧ f a = .ok b := by
  cases e <;> simp [Bind.bind, Except.bind]

@[simp] theorem pure_ok {ε α : Type} (a : α) : (pure a : Except ε α) = .ok a := rfl

@[simp] theorem dictLookup_dictSet_self (kvs : List (Val × Val)) (k v : Val) :
    dictLookup (dictSet kvs k v) k = some v := by
  induction kvs with
  | nil => simp [dictSet, dictLookup]
  | cons kv rest ih =>
    obtain ⟨k', v'⟩ := kv
    by_cases h : k' = k <;> simp [dictSet, dictLookup, h, ih]

theorem dictLookup_dictSet_ne (kvs : List (Val × Val)) (k v k' : Val)
    (h : k' ≠ k) : dictLookup (dictSet kvs k v) k' = dictLookup kvs k' := by
  induction kvs with
  | nil => simp [dictSet, dictLookup, Ne.symm h]
  | cons kv rest ih =>
    obtain ⟨k0, v0⟩ := kv
    by_cases h0 : k0 = k <;> by_cases h1 : k0 = k' <;>
      simp_all [dictSet, dictLookup]

theorem transform_parameter_entries_lookup {n : String}
    {pkvs pkvs' : List (Val × Val)} {k v : Val}
    (h : transform_parameter_entries n pkvs = .ok pkvs')
    (hk : dictLookup pkvs k = some v) :
    ∃ v', transform_parameter_entry n k v = .ok v' ∧
      dictLookup pkvs' k = some v' := by
  induction pkvs generalizing pkvs' with
  | nil => simp [dictLookup] at hk
  | cons kv rest ih =>
    obtain ⟨k0, v0⟩ := kv
    rw [transform_parameter_entries] at h
    rw [exbind_ok] at h
    obtain ⟨v0', hv0, h⟩ := h
    rw [exbind_ok] at h
    obtain ⟨rest', hrest, h⟩ := h
    simp only [pure_ok, Except.ok.injEq] at h
    subst h
    by_cases hk0 : k0 = k
    · subst hk0
      rw [dictLookup] at hk
      simp only [if_true, eq_self_iff_true, if_pos, Option.some.injEq] at hk
      subst hk
      refine ⟨v0', hv0, ?_⟩
      rw [dictLookup]
      simp
    · simp [dictLookup, hk0] at hk ⊢
      exact ih hrest hk

/-- Canonical indexed parameter-list item `{i: ..., v: ..., u: ...}` as it
occurs in stored records. -/
def paramItem (i : Int) (v : Val) (u : String) : Val :=
  .vdict [(.vstr "i", .vint i), (.vstr "v", v), (.vstr "u", .vstr u)]

theorem extract_param_item_eval (n : String) (i : Int) (v : Val) (u : String)
    (hu : u ≠ "") : extract_param_item n (paramItem i v u) = .ok (.vint i, .vunit u) := by
  simp [extract_param_item, catch_extract, paramItem, pyGetDefault, pySubscript,
    hashable, dictLookup, build_units, truthy, String.isEmpty_iff, hu]

theorem coeff_table_fold_canonical (n : String) (ts : List (Int × Val × String))
    (table : List (Val × Val)) (h : ∀ t ∈ ts, t.2.2 ≠ "") :
    coeff_table_fold n (ts.map (fun t => paramItem t.1 t.2.1 t.2.2)) table
      = .ok (ts.foldl (fun tb t =>
          dictSet tb (.vint t.1) (.vtuple [t.2.1, .vunit t.2.2])) table) := by
  induction ts generalizing table with
  | nil => simp [coeff_table_fold]
  | cons t rest ih =>
    obtain ⟨i, v, u⟩ := t
    have hu : u ≠ "" := h _ (List.mem_cons_self _ _)
    rw [List.map_cons, coeff_table_fold, extract_param_item_eval n i v u hu]
    simp only [ok_bind]
    have hv : pySubscript (paramItem i v u) (.vstr "v") = .ok v := by
      simp [paramItem, pySubscript, hashable, dictLookup]
    rw [hv]
    simp only [ok_bind, hashable, if_true]
    rw [List.foldl_cons]
    exact ih _ (fun t ht => h t (List.mem_cons_of_mem _ ht))

theorem transform_parameter_entry_single (n : String) (k : Val)
    (hk : k ≠ .vstr "reaction_order") (v : Val) (u : String) (hu : u ≠ "") :
    transform_parameter_entry n k
        (.vlist [.vdict [(.vstr "v", v), (.vstr "u", .vstr u)]])
      = .ok (.vtuple [v, .vunit u]) := by
  simp [transform_parameter_entry, hk, pyLen, pySubscript, dictLookup, hashable,
    build_units, truthy, String.isEmpty_iff, hu]

theorem transform_parameter_entry_multi (n : String) (k : Val)
    (hk : k ≠ .vstr "reaction_order") (ts : List (Int × Val × String))
    (h2 : 2 ≤ ts.length) (hu : ∀ t ∈ ts, t.2.2 ≠ "") :
    transform_parameter_entry n k
        (.vlist (ts.map (fun t => paramItem t.1 t.2.1 t.2.2)))
      = .ok (.vdict (ts.foldl (fun tb t =>
          dictSet tb (.vint t.1) (.vtuple [t.2.1, .vunit t.2.2])) [])) := by
  rw [transform_parameter_entry]
  simp only [if_neg hk]
  have hlen : pyLen (.vlist (ts.map (fun t => paramItem t.1 t.2.1 t.2.2)))
      = .ok ts.length := by simp [pyLen]
  rw [hlen]
  have h1 : 1 < ts.length := h2
  simp only [h1, if_true, pyIterElems, ok_bind]
  rw [coeff_table_fold_canonical n ts [] hu]
  simp

theorem dictLookup_ne_nil {pd : List (Val × Val)} {k v : Val}
    (h : dictLookup pd k = some v) : pd.isEmpty = false := by
  cases pd with
  | nil => simp [dictLookup] at h
  | cons a b => simp

theorem transform_parameter_data_inv {kvs pd : List (Val × Val)} {r' : Val}
    (hpd : dictLookup kvs (.vstr "parameter_data") = some (.vdict pd))
    (hne : pd.isEmpty = false)
    (hok : transform_parameter_data (.vdict kvs) = .ok r') :
    ∃ pkvs', transform_parameter_entries
        (pyStr ((dictLookup kvs (.vstr "name")).getD (.vstr "?"))) pd = .ok pkvs' ∧
      r' = .vdict (dictSet kvs (.vstr "parameter_data") (.vdict pkvs')) := by
  rw [transform_parameter_data] at hok
  simp only [pyGetDefault, hashable, if_true, ok_bind, hpd, Option.getD_some] at hok
  simp only [truthy, hne, Bool.not_false, Bool.true_eq_false, if_false] at hok
  rw [exbind_ok] at hok
  obtain ⟨pkvs', hp, hok⟩ := hok
  simp only [pySetItem, hashable, if_true, Except.ok.injEq] at hok
  exact ⟨pkvs', hp, hok.symm⟩

/-- C3: for every record whose `parameter_data` contains an entry that is a
5-element list `[{i:1,v:a,u:ua},...,{i:5,v:e,u:ue}]`, the generated fragment
maps that parameter name to a 5-entry mapping keyed `1..5` whose values are
`(value, built-unit)` pairs; and every 1-element list entry `[{v,u}]` is
normalized to a bare `(value, built-unit)` tuple, not a length-1 mapping. -/
theorem claim_C3_parameter_normalization
    (kvs pd : List (Val × Val)) (p q : String)
    (a b c d e v : Val) (ua ub uc ud ue u : String) (w : Val)
    (hp_ne : p ≠ "reaction_order") (hq_ne : q ≠ "reaction_order")
    (hua : ua ≠ "") (hub : ub ≠ "") (huc : uc ≠ "") (hud : ud ≠ "") (hue : ue ≠ "")
    (hu : u ≠ "")
    (hpd : dictLookup kvs (.vstr "parameter_data") = some (.vdict pd))
    (hp : dictLookup pd (.vstr p) = some (.vlist [
        paramItem 1 a ua, paramItem 2 b ub, paramItem 3 c uc,
        paramItem 4 d ud, paramItem 5 e ue]))
    (hq : dictLookup pd (.vstr q) = some (.vlist [
        .vdict [(.vstr "v", v), (.vstr "u", .vstr u)]]))
    (hok : transform_parameter_data (.vdict kvs) = .ok w) :
    ∃ pd', w = .vdict (dictSet kvs (.vstr "parameter_data") (.vdict pd')) ∧
      dictLookup pd' (.vstr p) = some (.vdict [
        (.vint 1, .vtuple [a, .vunit ua]), (.vint 2, .vtuple [b, .vunit ub]),
        (.vint 3, .vtuple [c, .vunit uc]), (.vint 4, .vtuple [d, .vunit ud]),
        (.vint 5, .vtuple [e, .vunit ue])]) ∧
      dictLookup pd' (.vstr q) = some (.vtuple [v, .vunit u]) := by
  obtain ⟨pkvs', htpe, hr⟩ :=
    transform_parameter_data_inv hpd (dictLookup_ne_nil hp) hok
  obtain ⟨vp, hvp, hlp⟩ := transform_parameter_entries_lookup htpe hp
  obtain ⟨vq, hvq, hlq⟩ := transform_parameter_entries_lookup htpe hq
  have hkp : (Val.vstr p) ≠ .vstr "reaction_order" := by simp [hp_ne]
  have hkq : (Val.vstr q) ≠ .vstr "reaction_order" := by simp [hq_ne]
  have hfive : (.vlist [paramItem 1 a ua, paramItem 2 b ub, paramItem 3 c uc,
      paramItem 4 d ud, paramItem 5 e ue] : Val)
      = .vlist (([(1, a, ua), (2, b, ub), (3, c, uc), (4, d, ud), (5, e, ue)] :
          List (Int × Val × String)).map (fun t => paramItem t.1 t.2.1 t.2.2)) := by
    simp
  rw [hfive] at hvp
  rw [transform_parameter_entry_multi _ _ hkp _ (by simp) (by
    intro t ht
    simp at ht
    rcases ht with h | h | h | h | h <;> (rw [h]; assumption))] at hvp
  rw [transform_parameter_entry_single _ _ hkq v u hu] at hvq
  simp only [Except.ok.injEq] at hvp hvq
  subst hvp
  subst hvq
  refine ⟨pkvs', hr, ?_, hlq⟩
  rw [hlp]
  simp [List.foldl, dictSet]

/-- Concrete record exercising both parameter shapes of C3. -/
def c3pd : List (Val × Val) := [
  (.vstr "p", .vlist [paramItem 1 (.vint 10) "K", paramItem 2 (.vint 20) "K",
     paramItem 3 (.vint 30) "K", paramItem 4 (.vint 40) "K",
     paramItem 5 (.vint 50) "K"]),
  (.vstr "q", .vlist [.vdict [(.vstr "v", .vint 7), (.vstr "u", .vstr "g/mol")]])]

/-- Record fields for the C3 witness. -/
def c3kvs : List (Val × Val) :=
  [(.vstr "name", .vstr "X"), (.vstr "parameter_data", .vdict c3pd)]

/-- Witness for C3 at a concrete record. -/
theorem claim_C3_parameter_normalization_witness :
    ∃ w pd', transform_parameter_data (.vdict c3kvs) = .ok w ∧
      w = .vdict (dictSet c3kvs (.vstr "parameter_data") (.vdict pd')) ∧
      dictLookup pd' (.vstr "p") = some (.vdict [
        (.vint 1, .vtuple [.vint 10, .vunit "K"]),
        (.vint 2, .vtuple [.vint 20, .vunit "K"]),
        (.vint 3, .vtuple [.vint 30, .vunit "K"]),
        (.vint 4, .vtuple [.vint 40, .vunit "K"]),
        (.vint 5, .vtuple [.vint 50, .vunit "K"])]) ∧
      dictLookup pd' (.vstr "q") = some (.vtuple [.vint 7, .vunit "g/mol"]) := by
  obtain ⟨pd', h1, h2, h3⟩ := claim_C3_parameter_normalization
    c3kvs c3pd "p" "q" (.vint 10) (.vint 20) (.vint 30) (.vint 40) (.vint 50)
    (.vint 7) "K" "K" "K" "K" "K" "g/mol" _
    (by decide) (by decide) (by decide) (by decide) (by decide) (by decide)
    (by decide) (by decide) rfl rfl rfl rfl
  exact ⟨_, pd', rfl, h1, h2, h3⟩

theorem dictSet_dictSet_same (kvs : List (Val × Val)) (k a b : Val) :
    dictSet (dictSet kvs k a) k b = dictSet kvs k b := by
  induction kvs with
  | nil => simp [dictSet]
  | cons kv rest ih =>
    obtain ⟨k0, v0⟩ := kv
    by_cases h : k0 = k <;> simp [dictSet, h, ih]

/-- Canonical unindexed parameter-list item `{v: ..., u: ...}`. -/
def noIdxItem (v : Val) (u : String) : Val :=
  .vdict [(.vstr "v", v), (.vstr "u", .vstr u)]

theorem extract_param_item_noidx (n : String) (v : Val) (u : String)
    (hu : u ≠ "") : extract_param_item n (noIdxItem v u) = .ok (.vint 0, .vunit u) := by
  simp [extract_param_item, catch_extract, noIdxItem, pyGetDefault, pySubscript,
    hashable, dictLookup, build_units, truthy, String.isEmpty_iff, hu]

theorem coeff_table_fold_noidx (n : String) (ts : List (Val × String))
    (lv : Val) (lu : String) (table : List (Val × Val))
    (hu : ∀ t ∈ ts ++ [(lv, lu)], t.2 ≠ "") :
    coeff_table_fold n ((ts ++ [(lv, lu)]).map (fun t => noIdxItem t.1 t.2)) table
      = .ok (dictSet table (.vint 0) (.vtuple [lv, .vunit lu])) := by
  induction ts generalizing table with
  | nil =>
    have hlu : lu ≠ "" := by
      have := hu (lv, lu) (by simp)
      exact this
    rw [List.nil_append, List.map_cons, List.map_nil, coeff_table_fold,
      extract_param_item_noidx n lv lu hlu]
    simp only [ok_bind]
    have hv : pySubscript (noIdxItem lv lu) (.vstr "v") = .ok lv := by
      simp [noIdxItem, pySubscript, hashable, dictLookup]
    rw [hv]
    simp [coeff_table_fold, hashable]
  | cons t rest ih =>
    obtain ⟨v, u⟩ := t
    have hu0 : u ≠ "" := hu (v, u) (by simp)
    rw [List.cons_append, List.map_cons, coeff_table_fold,
      extract_param_item_noidx n v u hu0]
    simp only [ok_bind]
    have hv : pySubscript (noIdxItem v u) (.vstr "v") = .ok v := by
      simp [noIdxItem, pySubscript, hashable, dictLookup]
    rw [hv]
    simp only [ok_bind, hashable, if_true]
    rw [ih _ (fun t ht => hu t (by simp at ht ⊢; tauto))]
    rw [dictSet_dictSet_same]

/-- Concrete C4 record: two parameter items, both lacking the `i` key. -/
def c4kvs : List (Val × Val) :=
  [(.vstr "name", .vstr "Y"),
   (.vstr "parameter_data", .vdict [(.vstr "p", .vlist [
      .vdict [(.vstr "v", .vint 1), (.vstr "u", .vstr "kg")],
      .vdict [(.vstr "v", .vint 2), (.vstr "u", .vstr "m")]])])]

/-- The coefficient table the code actually builds for `c4kvs`. -/
def c4table : List (Val × Val) := [(.vint 0, .vtuple [.vint 2, .vunit "m"])]

/-- C4 counterexample: on a 2-element parameter list whose elements lack the
`i` key, the code gives every element the same default index `0`, producing a
single-entry table in which the second element overwrote the first — not one
distinct sequential key per element as the claim states. -/
theorem claim_C4_counterexample :
    transform_parameter_data (.vdict c4kvs) = .ok (.vdict
      [(.vstr "name", .vstr "Y"),
       (.vstr "parameter_data", .vdict [(.vstr "p", .vdict c4table)])]) ∧
    (∀ k : Val, dictHasKey c4table k → k = .vint 0) ∧
    ¬ (∃ k1 k2 : Val, k1 ≠ k2 ∧ dictHasKey c4table k1 = true ∧
        dictHasKey c4table k2 = true) := by
  refine ⟨rfl, ?_, ?_⟩
  · intro k h
    by_cases hk : (Val.vint 0) = k
    · exact hk.symm
    · simp [c4table, dictHasKey, dictLookup, hk] at h
  · rintro ⟨k1, k2, hne, h1, h2⟩
    have e1 : k1 = .vint 0 := by
      by_cases hk : (Val.vint 0) = k1
      · exact hk.symm
      · simp [c4table, dictHasKey, dictLookup, hk] at h1
    have e2 : k2 = .vint 0 := by
      by_cases hk : (Val.vint 0) = k2
      · exact hk.symm
      · simp [c4table, dictHasKey, dictLookup, hk] at h2
    exact hne (e1.trans e2.symm)

/-- C4 (amended): in the forward normalization of a multi-element parameter
list, every element missing the `i` key receives the same default index `0`,
so all such elements collapse onto the single key `0` and the last element's
`(value, built-unit)` pair wins. -/
theorem claim_C4_amended_default_index_collapse
    (kvs pd : List (Val × Val)) (p : String) (w : Val)
    (ts : List (Val × String)) (v : Val) (u : String)
    (hp_ne : p ≠ "reaction_order")
    (hu : ∀ t ∈ ts ++ [(v, u)], t.2 ≠ "")
    (hlen : 2 ≤ (ts ++ [(v, u)]).length)
    (hpd : dictLookup kvs (.vstr "parameter_data") = some (.vdict pd))
    (hp : dictLookup pd (.vstr p) = some (.vlist
        ((ts ++ [(v, u)]).map (fun t => noIdxItem t.1 t.2))))
    (hok : transform_parameter_data (.vdict kvs) = .ok w) :
    ∃ pd', w = .vdict (dictSet kvs (.vstr "parameter_data") (.vdict pd')) ∧
      dictLookup pd' (.vstr p) = some (.vdict [(.vint 0, .vtuple [v, .vunit u])]) := by
  obtain ⟨pkvs', htpe, hr⟩ :=
    transform_parameter_data_inv hpd (dictLookup_ne_nil hp) hok
  obtain ⟨vp, hvp, hlp⟩ := transform_parameter_entries_lookup htpe hp
  have hkp : (Val.vstr p) ≠ .vstr "reaction_order" := by simp [hp_ne]
  rw [transform_parameter_entry] at hvp
  rw [if_neg hkp] at hvp
  have hplen : pyLen (.vlist ((ts ++ [(v, u)]).map (fun t => noIdxItem t.1 t.2)))
      = .ok (ts ++ [(v, u)]).length := by simp [pyLen]
  rw [hplen] at hvp
  have h1 : 1 < (ts ++ [(v, u)]).length := hlen
  simp only [h1, if_true, pyIterElems, ok_bind] at hvp
  rw [coeff_table_fold_noidx _ ts v u [] hu] at hvp
  simp only [ok_bind, pure_ok, Except.ok.injEq] at hvp
  subst hvp
  refine ⟨pkvs', hr, ?_⟩
  rw [hlp]
  simp [dictSet]

/-- Witness for the amended C4 at the concrete record `c4kvs`. -/
theorem claim_C4_amended_default_index_collapse_witness :
    ∃ w pd', transform_parameter_data (.vdict c4kvs) = .ok w ∧
      w = .vdict (dictSet c4kvs (.vstr "parameter_data") (.vdict pd')) ∧
      dictLookup pd' (.vstr "p") = some (.vdict [(.vint 0,
        .vtuple [.vint 2, .vunit "m"])]) := by
  obtain ⟨pd', h1, h2⟩ := claim_C4_amended_default_index_collapse
    c4kvs [(.vstr "p", .vlist [.vdict [(.vstr "v", .vint 1), (.vstr "u", .vstr "kg")],
      .vdict [(.vstr "v", .vint 2), (.vstr "u", .vstr "m")]])]
    "p" _ [(.vint 1, "kg")] (.vint 2) "m"
    (by decide) (by decide) (by decide) rfl rfl rfl
  exact ⟨_, pd', rfl, h1, h2⟩

/-- Concrete C5 record: second item of a multi-element parameter list lacks
the `u` key. -/
def c5kvs : List (Val × Val) :=
  [(.vstr "name", .vstr "Z"),
   (.vstr "parameter_data", .vdict [(.vstr "p", .vlist [
      .vdict [(.vstr "i", .vint 1), (.vstr "v", .vint 1), (.vstr "u", .vstr "kg")],
      .vdict [(.vstr "i", .vint 2), (.vstr "v", .vint 2)]])])]

/-- C5 counterexample: an element of a multi-element parameter list that is
missing its `u` key makes config generation raise `KeyError` — the
`except (AttributeError, TypeError, ValueError)` clause does not catch it —
not a `ConfigGeneratorError`. -/
theorem claim_C5_counterexample :
    transform_parameter_data (.vdict c5kvs) = .error (.keyError (.vstr "u")) ∧
    (∀ m : String, (PyErr.keyError (.vstr "u")) ≠ .configGeneratorError m) := by
  exact ⟨rfl, fun m h => by cases h⟩

/-- C5 (amended): in the multi-element branch, an item whose extraction
fails with `AttributeError`, `TypeError` or `ValueError` (for example an
item that is not a mapping) is converted to `ConfigGeneratorError` citing
the record name; but an item missing the `u` key fails with `KeyError`
at `item["u"]`, and an item missing the `v` key fails with `KeyError`
at `item["v"]` — both escape the `except` clause uncaught. -/
theorem claim_C5_amended_extraction_errors :
    (∀ (n : String) (item : Val), (∀ ikvs, item ≠ .vdict ikvs) →
       extract_param_item n item
         = .error (.configGeneratorError ("Cannot extract parameter. name=" ++ n))) ∧
    (∀ (n : String) (ikvs : List (Val × Val)),
       dictLookup ikvs (.vstr "u") = none →
       extract_param_item n (.vdict ikvs) = .error (.keyError (.vstr "u"))) ∧
    (∀ (n : String) (ikvs : List (Val × Val)) (rest : List Val)
       (table : List (Val × Val)) (u : String),
       dictLookup ikvs (.vstr "u") = some (.vstr u) → u ≠ "" →
       dictLookup ikvs (.vstr "v") = none →
       coeff_table_fold n (.vdict ikvs :: rest) table
         = .error (.keyError (.vstr "v"))) := by
  refine ⟨?_, ?_, ?_⟩
  · intro n item hnd
    cases item with
    | vdict ikvs => exact absurd rfl (hnd _)
    | vnone => simp [extract_param_item, catch_extract, pyGetDefault]
    | vstr s => simp [extract_param_item, catch_extract, pyGetDefault]
    | vint m => simp [extract_param_item, catch_extract, pyGetDefault]
    | vtuple xs => simp [extract_param_item, catch_extract, pyGetDefault]
    | vlist xs => simp [extract_param_item, catch_extract, pyGetDefault]
    | vunit s => simp [extract_param_item, catch_extract, pyGetDefault]
    | vobj t => simp [extract_param_item, catch_extract, pyGetDefault]
  · intro n ikvs hu
    simp [extract_param_item, catch_extract, pyGetDefault, pySubscript,
      hashable, hu]
  · intro n ikvs rest table u hu hune hv
    rw [coeff_table_fold]
    have hex : extract_param_item n (.vdict ikvs) = .ok
        ((dictLookup ikvs (.vstr "i")).getD (.vint 0), .vunit u) := by
      simp [extract_param_item, catch_extract, pyGetDefault, pySubscript,
        hashable, hu, build_units, truthy, String.isEmpty_iff, hune]
    rw [hex]
    simp [pySubscript, hashable, hv]

/-- Witness for the amended C5 at concrete items. -/
theorem claim_C5_amended_extraction_errors_witness :
    extract_param_item "Z" (.vstr "bogus")
      = .error (.configGeneratorError "Cannot extract parameter. name=Z") ∧
    extract_param_item "Z" (.vdict [(.vstr "i", .vint 2), (.vstr "v", .vint 2)])
      = .error (.keyError (.vstr "u")) ∧
    coeff_table_fold "Z" [.vdict [(.vstr "i", .vint 2), (.vstr "u", .vstr "m")]] []
      = .error (.keyError (.vstr "v")) := by
  refine ⟨?_, ?_, ?_⟩
  · exact claim_C5_amended_extraction_errors.1 "Z" (.vstr "bogus") (fun _ h => by cases h)
  · exact claim_C5_amended_extraction_errors.2.1 "Z" _ rfl
  · exact claim_C5_amended_extraction_errors.2.2 "Z"
      [(.vstr "i", .vint 2), (.vstr "u", .vstr "m")] [] [] "m" rfl (by decide) rfl

/-! ### Preservation lemmas for the substitution engine -/

theorem dictKeys_dictSet_present (kvs : List (Val × Val)) (k v : Val)
    (h : (dictLookup kvs k).isSome = true) :
    dictKeys (dictSet kvs k v) = dictKeys kvs := by
  induction kvs with
  | nil => simp [dictLookup] at h
  | cons kv rest ih =>
    obtain ⟨k0, v0⟩ := kv
    by_cases h0 : k0 = k
    · simp [dictSet, h0, dictKeys]
    · rw [dictLookup, if_neg h0] at h
      rw [dictSet, if_neg h0]
      simp only [dictKeys, List.map_cons, List.cons.injEq, true_and]
      exact ih h

theorem substitute_value_preserves {kvs : List (Val × Val)} {spec : SubstSpec}
    {k : Val} {r : List (Val × Val) × Bool}
    (h : substitute_value kvs spec k = .ok r) :
    (∀ k', k' ≠ k → dictLookup r.1 k' = dictLookup kvs k') ∧
    dictKeys r.1 = dictKeys kvs := by
  rw [substitute_value] at h
  cases hl : dictLookup kvs k with
  | none => rw [hl] at h; simp at h
  | some v =>
    rw [hl] at h
    simp only [pure_ok, ok_bind] at h
    have hsome : (dictLookup kvs k).isSome = true := by rw [hl]; rfl
    have main : ∀ (w : Val) (b : Bool), r = (dictSet kvs k w, b) →
        (∀ k', k' ≠ k → dictLookup r.1 k' = dictLookup kvs k') ∧
        dictKeys r.1 = dictKeys kvs := by
      intro w b hr
      subst hr
      exact ⟨fun k' hk' => dictLookup_dictSet_ne kvs k w k' hk',
        dictKeys_dictSet_present kvs k w hsome⟩
    cases v with
    | vstr s =>
        rw [exbind_ok] at h
        obtain ⟨a, _, h⟩ := h
        simp only [pure_ok, Except.ok.injEq] at h
        exact main _ _ h.symm
    | vint n =>
        rw [exbind_ok] at h
        obtain ⟨a, _, h⟩ := h
        simp only [pure_ok, Except.ok.injEq] at h
        exact main _ _ h.symm
    | vnone => simp [pyIterElems] at h
    | vunit s => simp [pyIterElems] at h
    | vobj t => simp [pyIterElems] at h
    | vlist xs =>
        simp only [pyIterElems, ok_bind] at h
        rw [exbind_ok] at h
        obtain ⟨a, _, h⟩ := h
        simp only [pure_ok, Except.ok.injEq] at h
        exact main _ _ h.symm
    | vtuple xs =>
        simp only [pyIterElems, ok_bind] at h
        rw [exbind_ok] at h
        obtain ⟨a, _, h⟩ := h
        simp only [pure_ok, Except.ok.injEq] at h
        exact main _ _ h.symm
    | vdict kvs2 =>
        simp only [pyIterElems, ok_bind] at h
        rw [exbind_ok] at h
        obtain ⟨a, _, h⟩ := h
        simp only [pure_ok, Except.ok.injEq] at h
        exact main _ _ h.symm

theorem subst_wildcard_preserves {spec : SubstSpec} :
    ∀ {ms : List Val} {kvs kvs' : List (Val × Val)},
    subst_wildcard kvs spec ms = .ok kvs' →
    (∀ k, k ∉ ms → dictLookup kvs' k = dictLookup kvs k) ∧
    dictKeys kvs' = dictKeys kvs := by
  intro ms
  induction ms with
  | nil =>
    intro kvs kvs' h
    rw [subst_wildcard] at h
    simp only [Except.ok.injEq] at h
    subst h
    exact ⟨fun _ _ => rfl, rfl⟩
  | cons m rest ih =>
    intro kvs kvs' h
    rw [subst_wildcard] at h
    cases hl : dictLookup kvs m with
    | none => rw [hl] at h; simp at h
    | some v =>
      rw [hl] at h
      dsimp only at h
      by_cases hs : stringish v = false
      · rw [if_pos hs] at h
        obtain ⟨hpre, hkeys⟩ := ih h
        refine ⟨fun k hk => ?_, hkeys⟩
        exact hpre k (fun hm => hk (List.mem_cons_of_mem _ hm))
      · rw [if_neg hs] at h
        rw [exbind_ok] at h
        obtain ⟨r, hr, h⟩ := h
        obtain ⟨hp1, hk1⟩ := substitute_value_preserves hr
        obtain ⟨hp2, hk2⟩ := ih h
        refine ⟨fun k hk => ?_, hk2.trans hk1⟩
        have hne : k ≠ m := fun he => hk (he ▸ List.mem_cons_self _ _)
        rw [hp2 k (fun hm => hk (List.mem_cons_of_mem _ hm)), hp1 k hne]

theorem collect_matches_sound {pat : String} :
    ∀ {keys : List Val} {ms : List Val},
    collect_matches keys pat = .ok ms →
    ∀ k ∈ ms, ∃ s, k = Val.vstr s ∧ fnmatch_case s pat = true := by
  intro keys
  induction keys with
  | nil =>
    intro ms h k hk
    rw [collect_matches] at h
    simp only [Except.ok.injEq] at h
    subst h
    cases hk
  | cons k0 rest ih =>
    intro ms h k hk
    cases k0 with
    | vstr s =>
      rw [collect_matches] at h
      rw [exbind_ok] at h
      obtain ⟨r, hr, h⟩ := h
      simp only [pure_ok, Except.ok.injEq] at h
      subst h
      by_cases hm : fnmatch_case s pat = true
      · rw [if_pos hm] at hk
        cases hk with
        | head => exact ⟨s, rfl, hm⟩
        | tail _ ht => exact ih hr k ht
      · rw [if_neg hm] at hk
        exact ih hr k hk
    | vnone => simp [collect_matches] at h
    | vint n => simp [collect_matches] at h
    | vtuple xs => simp [collect_matches] at h
    | vlist xs => simp [collect_matches] at h
    | vdict d => simp [collect_matches] at h
    | vunit s => simp [collect_matches] at h
    | vobj t => simp [collect_matches] at h

/-- A key is untouched by a substitution pattern when it either is not a
string, fails the glob (wildcard pattern), or differs from the pattern
(plain pattern). -/
def keyUntouched (pat : String) (k : Val) : Prop :=
  ∀ s, k = Val.vstr s →
    (if hasStar pat then fnmatch_case s pat = false else s ≠ pat)

theorem subst_in_dict_preserves {kvs kvs' : List (Val × Val)} {pat : String}
    {spec : SubstSpec} (h : subst_in_dict kvs pat spec = .ok kvs') :
    dictKeys kvs' = dictKeys kvs ∧
    ∀ k, keyUntouched pat k → dictLookup kvs' k = dictLookup kvs k := by
  rw [subst_in_dict] at h
  by_cases hw : hasStar pat
  · rw [if_pos hw] at h
    rw [exbind_ok] at h
    obtain ⟨ms, hms, h⟩ := h
    obtain ⟨hpre, hkeys⟩ := subst_wildcard_preserves h
    refine ⟨hkeys, fun k hk => ?_⟩
    refine hpre k (fun hmem => ?_)
    obtain ⟨s, rfl, hmatch⟩ := collect_matches_sound hms k hmem
    have := hk s rfl
    rw [if_pos hw] at this
    rw [this] at hmatch
    cases hmatch
  · rw [if_neg hw] at h
    by_cases hkey : dictHasKey kvs (.vstr pat)
    · rw [if_pos hkey] at h
      rw [exbind_ok] at h
      obtain ⟨r, hr, h⟩ := h
      simp only [pure_ok, Except.ok.injEq] at h
      subst h
      obtain ⟨hpre, hkeys⟩ := substitute_value_preserves hr
      refine ⟨hkeys, fun k hk => hpre k (fun he => ?_)⟩
      subst he
      have := hk pat rfl
      rw [if_neg hw] at this
      exact this rfl
    · rw [if_neg hkey] at h
      simp only [Except.ok.injEq] at h
      subst h
      exact ⟨rfl, fun _ _ => rfl⟩

theorem subst_path_single_preserves {kvs : List (Val × Val)} {p : String}
    {spec : SubstSpec} {w : Val}
    (h : subst_path (.vdict kvs) [p] spec = .ok w) :
    ∃ kvs', w = .vdict kvs' ∧ dictKeys kvs' = dictKeys kvs ∧
      ∀ k, keyUntouched p k → dictLookup kvs' k = dictLookup kvs k := by
  rw [subst_path] at h
  rw [exbind_ok] at h
  obtain ⟨kvs', hk, h⟩ := h
  simp only [pure_ok, Except.ok.injEq] at h
  subst h
  obtain ⟨hkeys, hpre⟩ := subst_in_dict_preserves hk
  exact ⟨kvs', rfl, hkeys, hpre⟩

theorem subst_path_dotted_preserves {kvs : List (Val × Val)} {p q : String}
    {rest : List String} {spec : SubstSpec} {w : Val}
    (h : subst_path (.vdict kvs) (p :: q :: rest) spec = .ok w) :
    ∃ kvs', w = .vdict kvs' ∧ dictKeys kvs' = dictKeys kvs ∧
      ∀ k, k ≠ .vstr p → dictLookup kvs' k = dictLookup kvs k := by
  have hunfold : subst_path (.vdict kvs) (p :: q :: rest) spec =
      (match dictLookup kvs (.vstr p) with
       | some sub => do
           let sub' ← subst_path sub (q :: rest) spec
           pure (Val.vdict (dictSet kvs (.vstr p) sub'))
       | none => .ok (.vdict kvs)) := rfl
  rw [hunfold] at h
  cases hl : dictLookup kvs (.vstr p) with
  | none =>
    rw [hl] at h
    simp only [Except.ok.injEq] at h
    subst h
    exact ⟨kvs, rfl, rfl, fun _ _ => rfl⟩
  | some sub =>
    rw [hl] at h
    rw [exbind_ok] at h
    obtain ⟨sub', hsub, h⟩ := h
    simp only [pure_ok, Except.ok.injEq] at h
    subst h
    refine ⟨_, rfl, dictKeys_dictSet_present kvs _ _ (by rw [hl]; rfl),
      fun k hk => dictLookup_dictSet_ne kvs _ _ k hk⟩

theorem transform_parameter_data_preserves {kvs : List (Val × Val)} {w : Val}
    (hok : transform_parameter_data (.vdict kvs) = .ok w) :
    ∃ kvs', w = .vdict kvs' ∧ dictKeys kvs' = dictKeys kvs ∧
      ∀ k, k ≠ .vstr "parameter_data" → dictLookup kvs' k = dictLookup kvs k := by
  rw [transform_parameter_data] at hok
  simp only [pyGetDefault, hashable, if_true, ok_bind] at hok
  cases hl : dictLookup kvs (.vstr "parameter_data") with
  | none =>
    rw [hl] at hok
    simp only [Option.getD_none, truthy, if_pos, Except.ok.injEq] at hok
    subst hok
    exact ⟨kvs, rfl, rfl, fun _ _ => rfl⟩
  | some params =>
    rw [hl] at hok
    simp only [Option.getD_some] at hok
    by_cases ht : truthy params = false
    · rw [if_pos ht] at hok
      simp only [Except.ok.injEq] at hok
      subst hok
      exact ⟨kvs, rfl, rfl, fun _ _ => rfl⟩
    · rw [if_neg ht] at hok
      cases params with
      | vdict pd =>
        rw [exbind_ok] at hok
        obtain ⟨pkvs', _, hok⟩ := hok
        simp only [pySetItem, hashable, if_true, Except.ok.injEq] at hok
        subst hok
        exact ⟨_, rfl, dictKeys_dictSet_present kvs _ _ (by rw [hl]; rfl),
          fun k hk => dictLookup_dictSet_ne kvs _ _ k hk⟩
      | vnone => simp at hok
      | vstr s => simp at hok
      | vint n => simp at hok
      | vtuple xs => simp at hok
      | vlist xs => simp at hok
      | vunit s => simp at hok
      | vobj t => simp at hok

theorem reformat_stoichiometry_spec :
    ∀ {kvs kvs2 : List (Val × Val)},
    reformat_stoichiometry kvs = .ok kvs2 →
    dictKeys kvs2 = dictKeys kvs ∧
    (∀ k, k ≠ .vstr "stoichiometry" → dictLookup kvs2 k = dictLookup kvs k) ∧
    (∀ v, dictLookup kvs (.vstr "stoichiometry") = some v →
       ∃ t, flatten_phase_map v = .ok t ∧
         dictLookup kvs2 (.vstr "stoichiometry") = some (.vdict t)) := by
  intro kvs
  induction kvs with
  | nil =>
    intro kvs2 h
    rw [reformat_stoichiometry] at h
    simp only [Except.ok.injEq] at h
    subst h
    exact ⟨rfl, fun _ _ => rfl, fun v hv => by simp [dictLookup] at hv⟩
  | cons kv rest ih =>
    intro kvs2 h
    obtain ⟨k0, v0⟩ := kv
    rw [reformat_stoichiometry] at h
    by_cases hk0 : k0 = Val.vstr "stoichiometry"
    · rw [if_pos hk0] at h
      rw [exbind_ok] at h
      obtain ⟨t, hflat, h⟩ := h
      rw [exbind_ok] at h
      obtain ⟨rest2, hrest, h⟩ := h
      simp only [pure_ok, Except.ok.injEq] at h
      subst h
      obtain ⟨hkeys, hpre, _⟩ := ih hrest
      subst hk0
      refine ⟨by simp only [dictKeys, List.map_cons, List.cons.injEq, true_and]; exact hkeys,
        fun k hk => ?_, fun v hv => ?_⟩
      · rw [dictLookup, dictLookup, if_neg (fun he => hk he.symm),
          if_neg (fun he => hk he.symm)]
        exact hpre k hk
      · have hv' : v0 = v := by
          rw [dictLookup] at hv
          simpa using hv
        subst hv'
        refine ⟨t, hflat, ?_⟩
        rw [dictLookup]
        simp
    · rw [if_neg hk0] at h
      rw [exbind_ok] at h
      obtain ⟨rest2, hrest, h⟩ := h
      simp only [pure_ok, Except.ok.injEq] at h
      subst h
      obtain ⟨hkeys, hpre, hst⟩ := ih hrest
      refine ⟨by simp only [dictKeys, List.map_cons, List.cons.injEq, true_and]; exact hkeys,
        fun k hk => ?_, fun v hv => ?_⟩
      · rw [dictLookup, dictLookup]
        by_cases he : k0 = k
        · simp [he]
        · rw [if_neg he, if_neg he]
          exact hpre k hk
      · rw [dictLookup, if_neg hk0] at hv
        rw [dictLookup, if_neg hk0]
        exact hst v hv

theorem substitute_cons (sec : String) (spec : SubstSpec)
    (rest : List (String × SubstSpec)) (data : Val) :
    substitute ((sec, spec) :: rest) data = (do
      let data' ← subst_path data (splitDots sec) spec
      substitute rest data') := rfl

/-- Pointwise preservation of a key through the whole reaction substitution
table: `type`, `stoichiometry` and `name` match none of its patterns. -/
theorem substitute_reaction_preserves {kvs : List (Val × Val)} {w : Val} {s : String}
    (hs1 : s ≠ "heat_of_reaction")
    (hs2 : fnmatch_case s "*_form" = false)
    (hs3 : fnmatch_case s "*_constant" = false)
    (h : substitute reactionSubstituteValues (.vdict kvs) = .ok w) :
    ∃ kvs', w = .vdict kvs' ∧ dictKeys kvs' = dictKeys kvs ∧
      dictLookup kvs' (.vstr s) = dictLookup kvs (.vstr s) := by
  rw [reactionSubstituteValues] at h
  rw [substitute_cons] at h
  rw [exbind_ok] at h
  obtain ⟨d1, h1, h⟩ := h
  have hsplit1 : splitDots "heat_of_reaction" = ["heat_of_reaction"] := by decide
  rw [hsplit1] at h1
  obtain ⟨kvs1, rfl, hk1, hp1⟩ := subst_path_single_preserves h1
  rw [substitute_cons] at h
  rw [exbind_ok] at h
  obtain ⟨d2, h2, h⟩ := h
  have hsplit2 : splitDots "*_form" = ["*_form"] := by decide
  rw [hsplit2] at h2
  obtain ⟨kvs2, rfl, hk2, hp2⟩ := subst_path_single_preserves h2
  rw [substitute_cons] at h
  rw [exbind_ok] at h
  obtain ⟨d3, h3, h⟩ := h
  have hsplit3 : splitDots "*_constant" = ["*_constant"] := by decide
  rw [hsplit3] at h3
  obtain ⟨kvs3, rfl, hk3, hp3⟩ := subst_path_single_preserves h3
  rw [substitute] at h
  simp only [Except.ok.injEq] at h
  subst h
  refine ⟨kvs3, rfl, (hk3.trans hk2).trans hk1, ?_⟩
  rw [hp3 _ (fun s' he => by
        simp only [Val.vstr.injEq] at he
        subst he
        rw [if_pos (by decide)]
        exact hs3),
      hp2 _ (fun s' he => by
        simp only [Val.vstr.injEq] at he
        subst he
        rw [if_pos (by decide)]
        exact hs2),
      hp1 _ (fun s' he => by
        simp only [Val.vstr.injEq] at he
        subst he
        rw [if_neg (by decide)]
        exact hs1)]

/-- C6: for every reaction record whose `type` field is any value other than
`"equilibrium"`, `ReactionConfig._transform` (and hence first access to
`Reaction.idaes_config`) raises; it never produces a fragment. -/
theorem claim_C6_invalid_reaction_type_fatal (kvs : List (Val × Val)) (t : Val)
    (ht : dictLookup kvs (.vstr "type") = some t)
    (hne : t ≠ .vstr "equilibrium") :
    ∃ e, ReactionConfig.transform (.vdict kvs) = .error e := by
  cases hres : ReactionConfig.transform (.vdict kvs) with
  | error e => exact ⟨e, rfl⟩
  | ok w =>
    exfalso
    rw [ReactionConfig.transform] at hres
    rw [exbind_ok] at hres
    obtain ⟨d1, h1, hres⟩ := hres
    obtain ⟨kvs1, rfl, hk1, hp1⟩ := transform_parameter_data_preserves h1
    simp only [dictItems, ok_bind] at hres
    rw [exbind_ok] at hres
    obtain ⟨kvs2, h2, hres⟩ := hres
    obtain ⟨hk2, hp2, _⟩ := reformat_stoichiometry_spec h2
    rw [exbind_ok] at hres
    obtain ⟨d3, h3, hres⟩ := hres
    have ht1 : dictLookup kvs1 (.vstr "type") = some t := by
      rw [hp1 _ (by decide)]; exact ht
    have ht2 : dictLookup kvs2 (.vstr "type") = some t := by
      rw [hp2 _ (by decide)]; exact ht1
    obtain ⟨kvs3, rfl, hk3, ht3⟩ :=
      substitute_reaction_preserves (s := "type") (by decide) (by decide)
        (by decide) h3
    rw [ht2] at ht3
    simp only [pySubscript, hashable, if_true, ht3, ok_bind] at hres
    simp only [pyDelItem, hashable, if_true, dictHasKey, ht3, Option.isSome_some,
      ok_bind] at hres
    rw [if_neg hne] at hres
    cases hres

/-- Witness for C6 at a concrete reaction record of type `"rate"`. -/
theorem claim_C6_invalid_reaction_type_fatal_witness :
    ∃ e, ReactionConfig.transform
      (.vdict [(.vstr "name", .vstr "R"), (.vstr "type", .vstr "rate")])
        = .error e :=
  claim_C6_invalid_reaction_type_fatal
    [(.vstr "name", .vstr "R"), (.vstr "type", .vstr "rate")]
    (.vstr "rate") rfl (by decide)

/-! ### Success characterization of the substitution engine -/

theorem dictLookup_isSome_iff_mem (kvs : List (Val × Val)) (k : Val) :
    (dictLookup kvs k).isSome = true ↔ k ∈ dictKeys kvs := by
  induction kvs with
  | nil => simp [dictLookup, dictKeys]
  | cons kv rest ih =>
    obtain ⟨k0, v0⟩ := kv
    by_cases h : k0 = k
    · subst h
      simp [dictLookup, dictKeys]
    · rw [dictLookup, if_neg h, ih]
      constructor
      · intro hm
        exact List.mem_cons_of_mem _ hm
      · intro hm
        rcases List.mem_cons.mp hm with he | hm2
        · exact absurd he.symm h
        · exact hm2

/-- Per-element image of a hashable value under a literal substitution
table: substituted if present, else unchanged. -/
def elemImage (m : List (Val × Val)) (x : Val) : Val := (dictLookup m x).getD x

/-- Result value of `substitute_value` at a stringish value. -/
def stringishOutcome (m : List (Val × Val)) (v : Val) : Val :=
  match v with
  | .vstr _ => elemImage m v
  | _ => .vlist []

/-- Result value of `substitute_value` with a literal table at a safe value:
a scalar maps through the table; a sequence (or dict, via its keys) becomes a
list of mapped elements. -/
def tableImage (m : List (Val × Val)) (v : Val) : Val :=
  match v with
  | .vstr _ => elemImage m v
  | .vint _ => elemImage m v
  | .vlist xs => .vlist (xs.map (elemImage m))
  | .vtuple xs => .vlist (xs.map (elemImage m))
  | .vdict kvs2 => .vlist ((dictKeys kvs2).map (elemImage m))
  | v => v

/-- Values on which `substitute_value` with a literal table cannot fail. -/
def substValueSafe (v : Val) : Bool :=
  match v with
  | .vstr _ => true
  | .vint _ => true
  | .vlist xs => xs.all hashable
  | .vtuple xs => xs.all hashable
  | .vdict kvs2 => (dictKeys kvs2).all hashable
  | _ => false

theorem subst_list_table (m : List (Val × Val)) :
    ∀ (xs : List Val), xs.all hashable = true →
    ∃ c, subst_list (.table m) xs = .ok (xs.map (elemImage m), c) := by
  intro xs
  induction xs with
  | nil => exact fun _ => ⟨0, rfl⟩
  | cons x rest ih =>
    intro hall
    simp only [List.all_cons, Bool.and_eq_true] at hall
    obtain ⟨c, hc⟩ := ih hall.2
    rw [subst_list]
    simp only [subst_one, hall.1, if_true, ok_bind, hc]
    cases hm : dictLookup m x with
    | none => exact ⟨c, by simp [elemImage, hm]⟩
    | some nv => exact ⟨c + 1, by simp [elemImage, hm]⟩

theorem substitute_value_safe {kvs : List (Val × Val)} {k v : Val}
    (m : List (Val × Val)) (hl : dictLookup kvs k = some v)
    (hs : substValueSafe v = true) :
    ∃ b, substitute_value kvs (.table m) k = .ok (dictSet kvs k (tableImage m v), b) := by
  rw [substitute_value, hl]
  simp only [pure_ok, ok_bind]
  cases v with
  | vstr s =>
      obtain ⟨c, hc⟩ := subst_list_table m [.vstr s] (by simp [hashable])
      rw [hc]
      refine ⟨c == 1, ?_⟩
      simp [tableImage]
  | vint n =>
      obtain ⟨c, hc⟩ := subst_list_table m [.vint n] (by simp [hashable])
      rw [hc]
      refine ⟨c == 1, ?_⟩
      simp [tableImage]
  | vlist xs =>
      obtain ⟨c, hc⟩ := subst_list_table m xs (by simpa [substValueSafe] using hs)
      simp only [pyIterElems, ok_bind, hc]
      refine ⟨c == xs.length, ?_⟩
      simp [tableImage]
  | vtuple xs =>
      obtain ⟨c, hc⟩ := subst_list_table m xs (by simpa [substValueSafe] using hs)
      simp only [pyIterElems, ok_bind, hc]
      refine ⟨c == xs.length, ?_⟩
      simp [tableImage]
  | vdict kvs2 =>
      obtain ⟨c, hc⟩ := subst_list_table m (List.map Prod.fst kvs2)
        (by simpa [substValueSafe, dictKeys] using hs)
      simp only [pyIterElems, ok_bind, dictKeys]
      rw [hc]
      refine ⟨c == (List.map Prod.fst kvs2).length, ?_⟩
      simp [tableImage, dictKeys]
  | vnone => simp [substValueSafe] at hs
  | vunit s => simp [substValueSafe] at hs
  | vobj t => simp [substValueSafe] at hs

theorem substitute_value_stringish {kvs : List (Val × Val)} {k v : Val}
    (m : List (Val × Val)) (hl : dictLookup kvs k = some v)
    (hs : stringish v = true) :
    ∃ b, substitute_value kvs (.table m) k
      = .ok (dictSet kvs k (stringishOutcome m v), b) := by
  cases v with
  | vstr s =>
      obtain ⟨b, hb⟩ := substitute_value_safe m hl (by simp [substValueSafe])
      exact ⟨b, by rwa [show tableImage m (.vstr s) = stringishOutcome m (.vstr s) from rfl] at hb⟩
  | vlist xs =>
      rw [stringish] at hs
      have : xs = [] := by simpa using hs
      subst this
      obtain ⟨b, hb⟩ := substitute_value_safe m hl (by simp [substValueSafe])
      exact ⟨b, by rwa [show tableImage m (.vlist []) = stringishOutcome m (.vlist []) from rfl] at hb⟩
  | vtuple xs =>
      rw [stringish] at hs
      have : xs = [] := by simpa using hs
      subst this
      obtain ⟨b, hb⟩ := substitute_value_safe m hl (by simp [substValueSafe])
      exact ⟨b, by rwa [show tableImage m (.vtuple []) = stringishOutcome m (.vtuple []) from rfl] at hb⟩
  | vnone => simp [stringish] at hs
  | vint n => simp [stringish] at hs
  | vdict kvs2 => simp [stringish] at hs
  | vunit s => simp [stringish] at hs
  | vobj t => simp [stringish] at hs

theorem subst_wildcard_table (m : List (Val × Val)) :
    ∀ (ms : List Val) (kvs : List (Val × Val)),
    (∀ k ∈ ms, (dictLookup kvs k).isSome = true) → ms.Nodup →
    ∃ kvs', subst_wildcard kvs (.table m) ms = .ok kvs' ∧
      dictKeys kvs' = dictKeys kvs ∧
      (∀ k, k ∉ ms → dictLookup kvs' k = dictLookup kvs k) ∧
      (∀ k v, k ∈ ms → dictLookup kvs k = some v →
        dictLookup kvs' k = some (if stringish v then stringishOutcome m v else v)) := by
  intro ms
  induction ms with
  | nil =>
    intro kvs _ _
    exact ⟨kvs, rfl, rfl, fun _ _ => rfl, fun k v hk => absurd hk (List.not_mem_nil k)⟩
  | cons k1 rest ih =>
    intro kvs hsome hnd
    have hk1 : (dictLookup kvs k1).isSome = true := hsome k1 (List.mem_cons_self _ _)
    obtain ⟨v1, hv1⟩ := Option.isSome_iff_exists.mp hk1
    have hk1nr : k1 ∉ rest := (List.nodup_cons.mp hnd).1
    have hndr : rest.Nodup := (List.nodup_cons.mp hnd).2
    by_cases hs : stringish v1 = false
    · obtain ⟨kvs', hw, hkeys, hpre, hmem⟩ := ih kvs
        (fun k hk => hsome k (List.mem_cons_of_mem _ hk)) hndr
      refine ⟨kvs', ?_, hkeys, ?_, ?_⟩
      · rw [subst_wildcard, hv1]
        dsimp only
        rw [if_pos hs]
        exact hw
      · intro k hk
        exact hpre k (fun hm => hk (List.mem_cons_of_mem _ hm))
      · intro k v hk hv
        rcases List.mem_cons.mp hk with he | hm
        · subst he
          rw [hpre k hk1nr, hv]
          rw [hv1] at hv
          cases hv
          rw [hs]
          simp
        · exact hmem k v hm hv
    · have hst : stringish v1 = true := by
        cases hb : stringish v1
        · exact absurd hb hs
        · rfl
      obtain ⟨b, hsv⟩ := substitute_value_stringish m hv1 hst
      have hkeys1 : dictKeys (dictSet kvs k1 (stringishOutcome m v1)) = dictKeys kvs :=
        dictKeys_dictSet_present kvs k1 _ hk1
      obtain ⟨kvs', hw, hkeys, hpre, hmem⟩ := ih (dictSet kvs k1 (stringishOutcome m v1))
        (fun k hk => by
          rw [show dictLookup (dictSet kvs k1 (stringishOutcome m v1)) k = dictLookup kvs k from
            dictLookup_dictSet_ne kvs k1 _ k (fun he => hk1nr (he ▸ hk))]
          exact hsome k (List.mem_cons_of_mem _ hk)) hndr
      refine ⟨kvs', ?_, hkeys.trans hkeys1, ?_, ?_⟩
      · rw [subst_wildcard, hv1]
        dsimp only
        rw [if_neg hs, hsv]
        simp only [ok_bind]
        exact hw
      · intro k hk
        have hne : k ≠ k1 := fun he => hk (he ▸ List.mem_cons_self _ _)
        rw [hpre k (fun hm => hk (List.mem_cons_of_mem _ hm)),
          dictLookup_dictSet_ne kvs k1 _ k hne]
      · intro k v hk hv
        rcases List.mem_cons.mp hk with he | hm
        · subst he
          rw [hpre k hk1nr, dictLookup_dictSet_self]
          rw [hv1] at hv
          cases hv
          rw [hst]
          simp
        · have hne : k ≠ k1 := fun he => hk1nr (he ▸ hm)
          refine hmem k v hm ?_
          rw [dictLookup_dictSet_ne kvs k1 _ k hne]
          exact hv

theorem collect_matches_strings (pat : String) :
    ∀ (keys : List Val), (∀ k ∈ keys, ∃ s, k = Val.vstr s) →
    collect_matches keys pat = .ok (keys.filter (fun k =>
      match k with | .vstr s => fnmatch_case s pat | _ => false)) := by
  intro keys
  induction keys with
  | nil => intro _; rfl
  | cons k0 rest ih =>
    intro hall
    obtain ⟨s, rfl⟩ := hall k0 (List.mem_cons_self _ _)
    rw [collect_matches, ih (fun k hk => hall k (List.mem_cons_of_mem _ hk))]
    simp only [ok_bind, pure_ok, List.filter_cons]

/-- Pointwise result of a wildcard table section on the value at key `k`. -/
def wildImage (pat : String) (m : List (Val × Val)) (k v : Val) : Val :=
  match k with
  | .vstr s => if fnmatch_case s pat && stringish v then stringishOutcome m v else v
  | _ => v

theorem subst_in_dict_wild (pat : String) (m : List (Val × Val))
    (kvs : List (Val × Val)) (hstar : hasStar pat = true)
    (hkeys : ∀ k ∈ dictKeys kvs, ∃ s, k = Val.vstr s)
    (hnodup : (dictKeys kvs).Nodup) :
    ∃ kvs', subst_in_dict kvs pat (.table m) = .ok kvs' ∧
      dictKeys kvs' = dictKeys kvs ∧
      (∀ k v, dictLookup kvs k = some v →
        dictLookup kvs' k = some (wildImage pat m k v)) := by
  rw [subst_in_dict, if_pos hstar]
  rw [collect_matches_strings pat (dictKeys kvs) hkeys]
  simp only [ok_bind]
  have hsome : ∀ k ∈ (dictKeys kvs).filter (fun k =>
      match k with | .vstr s => fnmatch_case s pat | _ => false),
      (dictLookup kvs k).isSome = true := by
    intro k hk
    exact (dictLookup_isSome_iff_mem kvs k).mpr (List.mem_of_mem_filter hk)
  obtain ⟨kvs', hw, hkeys', hpre, hmem⟩ :=
    subst_wildcard_table m _ kvs hsome (hnodup.filter _)
  refine ⟨kvs', hw, hkeys', fun k v hv => ?_⟩
  have hkmem : k ∈ dictKeys kvs := (dictLookup_isSome_iff_mem kvs k).mp (by rw [hv]; rfl)
  obtain ⟨s, rfl⟩ := hkeys k hkmem
  by_cases hf : fnmatch_case s pat = true
  · have hin : (Val.vstr s) ∈ (dictKeys kvs).filter (fun k =>
        match k with | .vstr s => fnmatch_case s pat | _ => false) := by
      rw [List.mem_filter]
      exact ⟨hkmem, hf⟩
    rw [hmem _ v hin hv]
    simp [wildImage, hf]
  · simp only [Bool.not_eq_true] at hf
    have hnin : (Val.vstr s) ∉ (dictKeys kvs).filter (fun k =>
        match k with | .vstr s => fnmatch_case s pat | _ => false) := by
      rw [List.mem_filter]
      rintro ⟨_, hcontra⟩
      dsimp only at hcontra
      rw [hf] at hcontra
      cases hcontra
    rw [hpre _ hnin, hv]
    simp [wildImage, hf]

theorem subst_in_dict_plain (pat : String) (m : List (Val × Val))
    (kvs : List (Val × Val)) (hstar : hasStar pat = false)
    (hsafe : ∀ v, dictLookup kvs (.vstr pat) = some v → substValueSafe v = true) :
    ∃ kvs', subst_in_dict kvs pat (.table m) = .ok kvs' ∧
      dictKeys kvs' = dictKeys kvs ∧
      (∀ k v, dictLookup kvs k = some v →
        dictLookup kvs' k = some (if k = .vstr pat then tableImage m v else v)) := by
  rw [subst_in_dict, if_neg (by rw [hstar]; exact Bool.false_ne_true)]
  cases hhk : dictHasKey kvs (.vstr pat) with
  | false =>
    rw [if_neg Bool.false_ne_true]
    refine ⟨kvs, rfl, rfl, fun k v hv => ?_⟩
    by_cases he : k = .vstr pat
    · subst he
      rw [dictHasKey, hv] at hhk
      cases hhk
    · rw [hv, if_neg he]
  | true =>
    rw [if_pos rfl]
    have hex : ∃ v0, dictLookup kvs (.vstr pat) = some v0 := by
      rw [dictHasKey] at hhk
      exact Option.isSome_iff_exists.mp hhk
    obtain ⟨v0, hv0⟩ := hex
    obtain ⟨b, hsv⟩ := substitute_value_safe m hv0 (hsafe v0 hv0)
    rw [hsv]
    simp only [ok_bind, pure_ok]
    refine ⟨_, rfl, dictKeys_dictSet_present kvs _ _ (by rw [hv0]; rfl),
      fun k v hv => ?_⟩
    by_cases he : k = .vstr pat
    · subst he
      rw [hv0] at hv
      cases hv
      rw [dictLookup_dictSet_self, if_pos rfl]
    · rw [dictLookup_dictSet_ne kvs _ _ k he, hv, if_neg he]

/-- Pointwise image of a record value under the whole `ThermoConfig`
substitution pass (`valid_phase_types` table, then `*_comp` wildcard; the
`phase_equilibrium_form.*` section does not reach a record without that
field). -/
def thermoValImage (k v : Val) : Val :=
  match k with
  | .vstr s =>
      if s = "valid_phase_types" then tableImage vptTable v
      else if fnmatch_case s "*_comp" && stringish v then stringishOutcome compTable v
      else v
  | _ => v

theorem subst_path_single (kvs : List (Val × Val)) (p : String) (spec : SubstSpec) :
    subst_path (.vdict kvs) [p] spec = (do
      let kvs' ← subst_in_dict kvs p spec
      pure (Val.vdict kvs')) := rfl

theorem subst_path_dotted_absent (kvs : List (Val × Val)) (p q : String)
    (rest : List String) (spec : SubstSpec)
    (h : dictLookup kvs (.vstr p) = none) :
    subst_path (.vdict kvs) (p :: q :: rest) spec = .ok (.vdict kvs) := by
  have hunfold : subst_path (.vdict kvs) (p :: q :: rest) spec =
      (match dictLookup kvs (.vstr p) with
       | some sub => do
           let sub' ← subst_path sub (q :: rest) spec
           pure (Val.vdict (dictSet kvs (.vstr p) sub'))
       | none => .ok (.vdict kvs)) := rfl
  rw [hunfold, h]

theorem substitute_thermo_spec (kvs : List (Val × Val))
    (hkeys : ∀ k ∈ dictKeys kvs, ∃ s, k = Val.vstr s)
    (hnodup : (dictKeys kvs).Nodup)
    (hsafe : ∀ v, dictLookup kvs (.vstr "valid_phase_types") = some v →
      substValueSafe v = true)
    (hpef : dictLookup kvs (.vstr "phase_equilibrium_form") = none) :
    ∃ kvs', substitute thermoSubstituteValues (.vdict kvs) = .ok (.vdict kvs') ∧
      dictKeys kvs' = dictKeys kvs ∧
      (∀ k v, dictLookup kvs k = some v →
        dictLookup kvs' k = some (thermoValImage k v)) := by
  obtain ⟨kvs1, h1, hk1, hp1⟩ :=
    subst_in_dict_plain "valid_phase_types" vptTable kvs (by decide) hsafe
  obtain ⟨kvs2, h2, hk2, hp2⟩ := subst_in_dict_wild "*_comp" compTable kvs1
    (by decide) (by rw [hk1]; exact hkeys) (by rw [hk1]; exact hnodup)
  have hpef2 : dictLookup kvs2 (.vstr "phase_equilibrium_form") = none := by
    have h0 : ((dictLookup kvs (.vstr "phase_equilibrium_form")).isSome = true) ↔
        (Val.vstr "phase_equilibrium_form") ∈ dictKeys kvs :=
      dictLookup_isSome_iff_mem kvs _
    have h2' : ((dictLookup kvs2 (.vstr "phase_equilibrium_form")).isSome = true) ↔
        (Val.vstr "phase_equilibrium_form") ∈ dictKeys kvs :=
      (dictLookup_isSome_iff_mem kvs2 _).trans (by rw [hk2, hk1])
    cases hl : dictLookup kvs2 (.vstr "phase_equilibrium_form") with
    | none => rfl
    | some v =>
      exfalso
      have : (Val.vstr "phase_equilibrium_form") ∈ dictKeys kvs :=
        h2'.mp (by rw [hl]; rfl)
      have := h0.mpr this
      rw [hpef] at this
      cases this
  refine ⟨kvs2, ?_, hk2.trans hk1, ?_⟩
  · rw [thermoSubstituteValues, substitute_cons]
    rw [show splitDots "valid_phase_types" = ["valid_phase_types"] from by decide]
    rw [subst_path_single, h1]
    simp only [ok_bind, pure_ok]
    rw [substitute_cons]
    rw [show splitDots "*_comp" = ["*_comp"] from by decide]
    rw [subst_path_single, h2]
    simp only [ok_bind, pure_ok]
    rw [substitute_cons]
    rw [show splitDots "phase_equilibrium_form.*" = ["phase_equilibrium_form", "*"]
      from by decide]
    rw [subst_path_dotted_absent _ _ _ _ _ hpef2]
    simp only [ok_bind]
    rfl
  · intro k v hv
    have hkmem : k ∈ dictKeys kvs :=
      (dictLookup_isSome_iff_mem kvs k).mp (by rw [hv]; rfl)
    obtain ⟨s, rfl⟩ := hkeys k hkmem
    have hv1 := hp1 _ v hv
    by_cases hvpt : s = "valid_phase_types"
    · subst hvpt
      rw [if_pos rfl] at hv1
      have hv2 := hp2 _ _ hv1
      rw [hv2]
      have hnm : fnmatch_case "valid_phase_types" "*_comp" = false := by decide
      simp [wildImage, thermoValImage, hnm]
    · rw [if_neg (by simp [hvpt])] at hv1
      have hv2 := hp2 _ _ hv1
      rw [hv2]
      simp [wildImage, thermoValImage, hvpt]

/-! ### Characterization of `_wrap_section` on a fresh section -/

theorem dictSet_absent (kvs : List (Val × Val)) (k v : Val)
    (h : dictLookup kvs k = none) : dictSet kvs k v = kvs ++ [(k, v)] := by
  induction kvs with
  | nil => simp [dictSet]
  | cons kv rest ih =>
    obtain ⟨k0, v0⟩ := kv
    rw [dictLookup] at h
    by_cases h0 : k0 = k
    · rw [if_pos h0] at h
      cases h
    · rw [if_neg h0] at h
      simp [dictSet, h0, ih h]

theorem dictSet_append_last (kvs : List (Val × Val)) (k x y : Val)
    (h : dictLookup kvs k = none) :
    dictSet (kvs ++ [(k, x)]) k y = kvs ++ [(k, y)] := by
  induction kvs with
  | nil => simp [dictSet]
  | cons kv rest ih =>
    obtain ⟨k0, v0⟩ := kv
    rw [dictLookup] at h
    by_cases h0 : k0 = k
    · rw [if_pos h0] at h
      cases h
    · rw [if_neg h0] at h
      simp [dictSet, h0, ih h]

theorem dictLookup_append_right (kvs rest : List (Val × Val)) (k : Val)
    (h : dictLookup kvs k = none) :
    dictLookup (kvs ++ rest) k = dictLookup rest k := by
  induction kvs with
  | nil => simp
  | cons kv kvs0 ih =>
    obtain ⟨k0, v0⟩ := kv
    rw [dictLookup] at h
    by_cases h0 : k0 = k
    · rw [if_pos h0] at h
      cases h
    · rw [if_neg h0] at h
      simp [dictLookup, h0, ih h]

theorem dictLookup_eq_none_not_mem {kvs : List (Val × Val)} {k : Val}
    (h : dictLookup kvs k = none) : ∀ v, (k, v) ∉ kvs := by
  induction kvs with
  | nil => simp
  | cons kv rest ih =>
    obtain ⟨k0, v0⟩ := kv
    rw [dictLookup] at h
    by_cases h0 : k0 = k
    · rw [if_pos h0] at h
      cases h
    · rw [if_neg h0] at h
      intro v hv
      rcases List.mem_cons.mp hv with he | hm
      · exact h0 (congrArg Prod.fst he).symm
      · exact ih h v hm

theorem dictLookup_filter_keypred (p : Val → Bool) (kvs : List (Val × Val)) (k : Val) :
    dictLookup (kvs.filter (fun kv => p kv.1)) k
      = if p k then dictLookup kvs k else none := by
  induction kvs with
  | nil => simp [dictLookup]
  | cons kv rest ih =>
    obtain ⟨k0, v0⟩ := kv
    rw [List.filter_cons]
    by_cases hp : p k0
    · rw [if_pos hp, dictLookup]
      by_cases h0 : k0 = k
      · subst h0
        rw [if_pos rfl, if_pos hp, dictLookup, if_pos rfl]
      · rw [if_neg h0, ih, dictLookup, if_neg h0]
    · rw [if_neg hp, ih]
      by_cases h0 : k0 = k
      · subst h0
        rw [if_neg hp, if_neg hp]
      · rw [dictLookup, if_neg h0]

theorem remove_special_keep (kvs : List (Val × Val))
    (h : ∀ kv ∈ kvs, ∃ s, kv.1 = Val.vstr s ∧ strStarts s "_" = false ∧ s ≠ "name") :
    remove_special_go kvs = .ok kvs := by
  induction kvs with
  | nil => rfl
  | cons kv rest ih =>
    obtain ⟨k0, v0⟩ := kv
    obtain ⟨s, hs, hstart, hname⟩ := h (k0, v0) (List.mem_cons_self _ _)
    dsimp only at hs
    subst hs
    rw [remove_special_go, ih (fun kv hkv => h kv (List.mem_cons_of_mem _ hkv))]
    simp only [ok_bind, pure_ok, hstart]
    have : (s == "name") = false := by
      cases hb : s == "name"
      · rfl
      · exact absurd (by simpa using hb) hname
    rw [this]
    rfl

theorem map_id_on {α : Type} (f : α → α) :
    ∀ l : List α, (∀ x ∈ l, f x = x) → l.map f = l := by
  intro l
  induction l with
  | nil => intro _; rfl
  | cons x rest ih =>
    intro h
    rw [List.map_cons, h x (List.mem_cons_self _ _),
      ih (fun y hy => h y (List.mem_cons_of_mem _ hy))]

theorem wrap_section_fresh (sect : String) (kvs : List (Val × Val)) (nm : Val)
    (hnm : dictLookup kvs (.vstr "name") = some nm)
    (hh : hashable nm = true)
    (hsec : dictLookup kvs (.vstr sect) = none)
    (hs1 : sect ≠ "name") (hs2 : strStarts sect "_" = false) :
    wrap_section sect (.vdict kvs) =
      .ok (.vdict ((kvs.filter (fun kv => wrap_kept sect kv.1)) ++
        [(.vstr sect, .vdict [(nm, .vdict
          (kvs.filter (fun kv => !wrap_excluded sect kv.1)))])])) := by
  rw [wrap_section]
  simp only [pySubscript, hashable, if_true, hnm, ok_bind]
  simp only [pyContains, hashable, if_true, dictHasKey, hsec, Option.isSome_none, ok_bind]
  simp only [Bool.false_eq_true, if_false, pySetItem, hashable, if_true, ok_bind]
  rw [dictSet_absent kvs _ _ hsec]
  rw [dictLookup_append_right kvs _ _ hsec]
  simp only [dictLookup, if_pos rfl, ok_bind]
  simp only [pyContains, hh, if_true, dictHasKey, dictLookup, Option.isSome_none, ok_bind]
  simp only [Bool.false_eq_true, if_false, pySetItem, hh, if_true, ok_bind]
  simp only [dictSet]
  rw [dictSet_append_last kvs _ _ _ hsec]
  simp only [dictItems, ok_bind]
  rw [List.filter_append, List.filter_append]
  have hexcl : (!wrap_excluded sect (Val.vstr sect)) = false := by
    simp [wrap_excluded]
  have hkept : wrap_kept sect (Val.vstr sect) = true := by
    simp [wrap_kept]
  simp only [List.filter_cons, List.filter_nil, hexcl, hkept, if_true,
    Bool.false_eq_true, if_false, List.append_nil]
  rw [List.map_append]
  rw [map_id_on _ (kvs.filter (fun kv => wrap_kept sect kv.1)) (fun kv hkv => by
    have hmem : kv ∈ kvs := List.mem_of_mem_filter hkv
    have hne : kv.1 ≠ Val.vstr sect := by
      intro he
      exact dictLookup_eq_none_not_mem hsec kv.2 (by
        rw [← he]
        exact hmem)
    rw [if_neg hne])]
  simp only [List.map_cons, List.map_nil, if_pos rfl, if_true, dictSet]
  rw [remove_special]
  rw [remove_special_keep _ (fun kv hkv => by
    rcases List.mem_append.mp hkv with hm | hm
    · have hkeep : wrap_kept sect kv.1 = true := (List.mem_filter.mp hm).2
      rw [wrap_kept] at hkeep
      rcases Bool.or_eq_true_iff.mp hkeep with hb | hb
      · refine ⟨"base_units", by simpa using hb, by decide, by decide⟩
      · refine ⟨sect, by simpa using hb, hs2, hs1⟩
    · rcases List.mem_singleton.mp hm with rfl
      exact ⟨sect, rfl, hs2, hs1⟩)]
  simp

theorem lookup_none_of_keys_eq {kvs kvs' : List (Val × Val)}
    (hk : dictKeys kvs' = dictKeys kvs) {k : Val}
    (h : dictLookup kvs k = none) : dictLookup kvs' k = none := by
  cases hl : dictLookup kvs' k with
  | none => rfl
  | some v =>
    exfalso
    have hmem : k ∈ dictKeys kvs :=
      hk ▸ (dictLookup_isSome_iff_mem kvs' k).mp (by rw [hl]; rfl)
    have := (dictLookup_isSome_iff_mem kvs k).mpr hmem
    rw [h] at this
    cases this

theorem dictLookup_dictDel (kvs : List (Val × Val)) (k k' : Val) :
    dictLookup (dictDel kvs k) k' = if k' = k then none else dictLookup kvs k' := by
  induction kvs with
  | nil => simp [dictDel, dictLookup]
  | cons kv rest ih =>
    obtain ⟨k0, v0⟩ := kv
    by_cases h0 : k0 = k <;> by_cases h1 : k0 = k' <;>
      simp_all [dictDel, List.filter_cons, dictLookup]

/-- C7: for every component record lacking a `parameter_data` field entirely
(and otherwise well-formed: string field names, a hashable `name`, no
`components`/`phase_equilibrium_form` fields, and a substitution-safe
`valid_phase_types` value if present), `ThermoConfig._transform` completes
without raising and the generated `components` entry contains no
`parameter_data` key — missing parameters are non-fatal on the forward
path. -/
theorem claim_C7_missing_parameter_data_nonfatal
    (kvs : List (Val × Val)) (nm : Val)
    (hkeys : ∀ k ∈ dictKeys kvs, ∃ s, k = Val.vstr s)
    (hnodup : (dictKeys kvs).Nodup)
    (hname : dictLookup kvs (.vstr "name") = some nm)
    (hh : hashable nm = true)
    (hnopd : dictLookup kvs (.vstr "parameter_data") = none)
    (hnocomp : dictLookup kvs (.vstr "components") = none)
    (hsafe : ∀ v, dictLookup kvs (.vstr "valid_phase_types") = some v →
      substValueSafe v = true)
    (hpef : dictLookup kvs (.vstr "phase_equilibrium_form") = none) :
    ∃ sec entry, ThermoConfig.transform (.vdict kvs) = .ok (.vdict sec) ∧
      dictLookup sec (.vstr "components") = some (.vdict [(nm, .vdict entry)]) ∧
      dictHasKey entry (.vstr "parameter_data") = false := by
  have h1 : transform_parameter_data (.vdict kvs) = .ok (.vdict kvs) := by
    simp [transform_parameter_data, pyGetDefault, hashable, hnopd, truthy]
  obtain ⟨kvs2, h2, hk2, hp2⟩ := substitute_thermo_spec kvs hkeys hnodup hsafe hpef
  have hname2 : dictLookup kvs2 (.vstr "name") = some nm := by
    rw [hp2 _ nm hname]
    have hnm' : fnmatch_case "name" "*_comp" = false := by decide
    simp [thermoValImage, hnm']
  have hnopd2 : dictLookup kvs2 (.vstr "parameter_data") = none :=
    lookup_none_of_keys_eq hk2 hnopd
  have hnocomp2 : dictLookup kvs2 (.vstr "components") = none :=
    lookup_none_of_keys_eq hk2 hnocomp
  have tail : ∀ kvs3 : List (Val × Val),
      dictLookup kvs3 (.vstr "name") = some nm →
      dictLookup kvs3 (.vstr "components") = none →
      dictLookup kvs3 (.vstr "parameter_data") = none →
      ∃ sec entry, (do
          let data ← pySetItem (.vdict kvs3) (.vstr "type") (.vobj "IComponent")
          wrap_section "components" data) = .ok (.vdict sec) ∧
        dictLookup sec (.vstr "components") = some (.vdict [(nm, .vdict entry)]) ∧
        dictHasKey entry (.vstr "parameter_data") = false := by
    intro kvs3 hn hc hp
    simp only [pySetItem, hashable, if_true, ok_bind]
    have hn4 : dictLookup (dictSet kvs3 (.vstr "type") (.vobj "IComponent"))
        (.vstr "name") = some nm := by
      rw [dictLookup_dictSet_ne _ _ _ _ (by decide)]
      exact hn
    have hc4 : dictLookup (dictSet kvs3 (.vstr "type") (.vobj "IComponent"))
        (.vstr "components") = none := by
      rw [dictLookup_dictSet_ne _ _ _ _ (by decide)]
      exact hc
    rw [wrap_section_fresh "components" _ nm hn4 hh hc4 (by decide) (by decide)]
    refine ⟨_, (List.filter (fun kv => !wrap_excluded "components" kv.1)
      (dictSet kvs3 (.vstr "type") (.vobj "IComponent"))), rfl, ?_, ?_⟩
    · rw [dictLookup_append_right]
      · rw [dictLookup, if_pos rfl]
      · have hkp := dictLookup_filter_keypred (fun x => wrap_kept "components" x)
          (dictSet kvs3 (.vstr "type") (.vobj "IComponent")) (.vstr "components")
        rw [hkp, if_pos (by simp [wrap_kept])]
        exact hc4
    · have hkp := dictLookup_filter_keypred (fun x => !wrap_excluded "components" x)
        (dictSet kvs3 (.vstr "type") (.vobj "IComponent")) (.vstr "parameter_data")
      rw [dictHasKey, hkp, if_pos (by simp [wrap_excluded])]
      rw [dictLookup_dictSet_ne _ _ _ _ (by decide), hp]
      rfl
  rw [ThermoConfig.transform, h1]
  simp only [ok_bind]
  rw [h2]
  simp only [ok_bind]
  simp only [pyContains, hashable, if_true, ok_bind]
  by_cases he : dictHasKey kvs2 (.vstr "elements") = true
  · rw [if_pos he]
    simp only [pyDelItem, hashable, if_true, he, ok_bind]
    exact tail (dictDel kvs2 (.vstr "elements"))
      (by rw [dictLookup_dictDel, if_neg (by decide)]; exact hname2)
      (by rw [dictLookup_dictDel, if_neg (by decide)]; exact hnocomp2)
      (by rw [dictLookup_dictDel, if_neg (by decide)]; exact hnopd2)
  · rw [if_neg he]
    simp only [pure_ok, ok_bind]
    exact tail kvs2 hname2 hnocomp2 hnopd2

/-- Witness record for C7: has `name`, `valid_phase_types` and `elements`
but no `parameter_data`. -/
def c7kvs : List (Val × Val) :=
  [(.vstr "name", .vstr "W"),
   (.vstr "valid_phase_types", .vstr "PT.liquidPhase"),
   (.vstr "elements", .vlist [.vstr "H"])]

/-- Witness for C7 at `c7kvs`. -/
theorem claim_C7_missing_parameter_data_nonfatal_witness :
    ∃ sec entry, ThermoConfig.transform (.vdict c7kvs) = .ok (.vdict sec) ∧
      dictLookup sec (.vstr "components") = some (.vdict [(.vstr "W", .vdict entry)]) ∧
      dictHasKey entry (.vstr "parameter_data") = false := by
  refine claim_C7_missing_parameter_data_nonfatal c7kvs (.vstr "W")
    ?_ (by decide) rfl (by decide) rfl rfl ?_ rfl
  · intro k hk
    simp only [c7kvs, dictKeys, List.map_cons, List.map_nil, List.mem_cons,
      List.not_mem_nil, or_false] at hk
    rcases hk with rfl | rfl | rfl
    · exact ⟨"name", rfl⟩
    · exact ⟨"valid_phase_types", rfl⟩
    · exact ⟨"elements", rfl⟩
  · intro v hv
    have hvpt : dictLookup c7kvs (.vstr "valid_phase_types")
        = some (Val.vstr "PT.liquidPhase") := rfl
    rw [hvpt] at hv
    cases hv
    decide

theorem subst_wildcard_nonstringish_preserved {spec : SubstSpec} :
    ∀ {ms : List Val} {kvs kvs' : List (Val × Val)} {k v : Val},
    subst_wildcard kvs spec ms = .ok kvs' →
    dictLookup kvs k = some v → stringish v = false →
    dictLookup kvs' k = some v := by
  intro ms
  induction ms with
  | nil =>
    intro kvs kvs' k v h hv _
    rw [subst_wildcard] at h
    simp only [Except.ok.injEq] at h
    subst h
    exact hv
  | cons m rest ih =>
    intro kvs kvs' k v h hv hs
    rw [subst_wildcard] at h
    cases hl : dictLookup kvs m with
    | none => rw [hl] at h; cases h
    | some vm =>
      rw [hl] at h
      dsimp only at h
      by_cases hsm : stringish vm = false
      · rw [if_pos hsm] at h
        exact ih h hv hs
      · rw [if_neg hsm] at h
        rw [exbind_ok] at h
        obtain ⟨r, hr, h⟩ := h
        by_cases he : k = m
        · subst he
          rw [hv] at hl
          cases hl
          exact absurd hs hsm
        · refine ih h ?_ hs
          rw [(substitute_value_preserves hr).1 k he]
          exact hv

/-- C10: the `stringish` guard classifies a value as stringish exactly when
it is a string or an *empty* list or tuple — every non-empty sequence is
non-stringish regardless of its elements (the loop tests `isinstance(x, str)`
on the container, not the item) — and consequently, in the wildcard branch of
`ThermoConfig`'s value substitution, the value of every `*_comp`-matched
field that is not a scalar string (in particular any non-empty list or
tuple, whether or not its elements are substitution-table tokens) is skipped
and left unchanged. -/
theorem claim_C10_stringish_guard_skips_sequences :
    (∀ v : Val, stringish v = true ↔
      ((∃ s, v = Val.vstr s) ∨ v = .vlist [] ∨ v = .vtuple [])) ∧
    (∀ (kvs : List (Val × Val)) (w : Val) (s : String) (v : Val),
      fnmatch_case s "*_comp" = true →
      dictLookup kvs (.vstr s) = some v → stringish v = false →
      substitute thermoSubstituteValues (.vdict kvs) = .ok w →
      ∃ kvs', w = .vdict kvs' ∧ dictLookup kvs' (.vstr s) = some v) := by
  constructor
  · intro v
    cases v with
    | vstr s => simp [stringish]
    | vlist xs => cases xs <;> simp [stringish]
    | vtuple xs => cases xs <;> simp [stringish]
    | vnone => simp [stringish]
    | vint n => simp [stringish]
    | vdict d => simp [stringish]
    | vunit u => simp [stringish]
    | vobj t => simp [stringish]
  · intro kvs w s v hm hv hs hok
    have hsvpt : s ≠ "valid_phase_types" := by
      intro he
      subst he
      rw [show fnmatch_case "valid_phase_types" "*_comp" = false from by decide] at hm
      cases hm
    have hspef : s ≠ "phase_equilibrium_form" := by
      intro he
      subst he
      rw [show fnmatch_case "phase_equilibrium_form" "*_comp" = false from by decide] at hm
      cases hm
    rw [thermoSubstituteValues, substitute_cons] at hok
    rw [exbind_ok] at hok
    obtain ⟨d1, h1, hok⟩ := hok
    rw [show splitDots "valid_phase_types" = ["valid_phase_types"] from by decide] at h1
    obtain ⟨kvs1, rfl, hk1, hp1⟩ := subst_path_single_preserves h1
    have hv1 : dictLookup kvs1 (.vstr s) = some v := by
      rw [hp1 _ (fun s' he => by
        simp only [Val.vstr.injEq] at he
        subst he
        rw [if_neg (by decide)]
        exact hsvpt)]
      exact hv
    rw [substitute_cons] at hok
    rw [exbind_ok] at hok
    obtain ⟨d2, h2, hok⟩ := hok
    rw [show splitDots "*_comp" = ["*_comp"] from by decide] at h2
    rw [subst_path_single] at h2
    rw [exbind_ok] at h2
    obtain ⟨kvs2, h2i, h2p⟩ := h2
    simp only [pure_ok, Except.ok.injEq] at h2p
    subst h2p
    rw [subst_in_dict, if_pos (by decide : hasStar "*_comp" = true)] at h2i
    rw [exbind_ok] at h2i
    obtain ⟨ms, _, h2w⟩ := h2i
    have hv2 : dictLookup kvs2 (.vstr s) = some v :=
      subst_wildcard_nonstringish_preserved h2w hv1 hs
    rw [substitute_cons] at hok
    rw [exbind_ok] at hok
    obtain ⟨d3, h3, hok⟩ := hok
    rw [show splitDots "phase_equilibrium_form.*" = ["phase_equilibrium_form", "*"]
      from by decide] at h3
    obtain ⟨kvs3, rfl, hk3, hp3⟩ := subst_path_dotted_preserves h3
    rw [substitute] at hok
    simp only [Except.ok.injEq] at hok
    subst hok
    refine ⟨kvs3, rfl, ?_⟩
    rw [hp3 _ (by simp [hspef])]
    exact hv2

/-- Witness record for C10. -/
def c10kvs : List (Val × Val) :=
  [(.vstr "dens_mol_liq_comp", .vlist [.vstr "Perrys"])]

/-- Witness for C10: a `*_comp` field holding the non-empty list
`["Perrys"]` — whose element *is* a substitution-table token — is still left
unchanged by the substitution pass. -/
theorem claim_C10_stringish_guard_skips_sequences_witness :
    stringish (.vlist [.vstr "Perrys"]) = false ∧
    ∃ kvs', (Val.vdict c10kvs) = .vdict kvs' ∧
      dictLookup kvs' (.vstr "dens_mol_liq_comp") = some (.vlist [.vstr "Perrys"]) := by
  constructor
  · have h := (claim_C10_stringish_guard_skips_sequences.1
      (.vlist [.vstr "Perrys"]))
    cases hb : stringish (.vlist [.vstr "Perrys"]) with
    | false => rfl
    | true =>
      exfalso
      rcases h.mp hb with ⟨s, hs⟩ | hs | hs <;> cases hs
  · exact claim_C10_stringish_guard_skips_sequences.2 c10kvs (.vdict c10kvs)
      "dens_mol_liq_comp" (.vlist [.vstr "Perrys"]) (by decide) rfl (by decide) rfl

/-- The nested stoichiometry of claim C8. -/
def stoichC8 : Val := .vdict [(.vstr "Liq", .vdict [
  (.vstr "HCO3 -", .vint (-1)), (.vstr "H +", .vint 1), (.vstr "CO3 2-", .vint 1)])]

/-- Its flattened tuple-keyed form. -/
def stoichC8flat : List (Val × Val) := [
  (.vtuple [.vstr "Liq", .vstr "HCO3 -"], .vint (-1)),
  (.vtuple [.vstr "Liq", .vstr "H +"], .vint 1),
  (.vtuple [.vstr "Liq", .vstr "CO3 2-"], .vint 1)]

/-- C8: for every reaction record containing
`stoichiometry = {"Liq": {"HCO3 -": -1, "H +": 1, "CO3 2-": 1}}` whose
transform succeeds, the fragment's entry holds the flattened tuple-keyed
mapping, and `_convert_stoichiometry` applied to exactly that tuple-keyed
mapping reconstructs the original nested phase-to-species mapping. -/
theorem claim_C8_stoichiometry_round_trip
    (kvs : List (Val × Val)) (nm w : Val)
    (hst : dictLookup kvs (.vstr "stoichiometry") = some stoichC8)
    (hname : dictLookup kvs (.vstr "name") = some nm)
    (hh : hashable nm = true)
    (hsec : dictLookup kvs (.vstr "equilibrium_reactions") = none)
    (hok : ReactionConfig.transform (.vdict kvs) = .ok w) :
    (∃ sec entry, w = .vdict sec ∧
      dictLookup sec (.vstr "equilibrium_reactions")
        = some (.vdict [(nm, .vdict entry)]) ∧
      dictLookup entry (.vstr "stoichiometry") = some (.vdict stoichC8flat)) ∧
    convert_stoichiometry (.vdict stoichC8flat) []
      = .ok [(.vstr "stoichiometry", stoichC8)] := by
  refine ⟨?_, by rfl⟩
  rw [ReactionConfig.transform] at hok
  rw [exbind_ok] at hok
  obtain ⟨d1, h1, hok⟩ := hok
  obtain ⟨kvs1, rfl, hk1, hp1⟩ := transform_parameter_data_preserves h1
  simp only [dictItems, ok_bind] at hok
  rw [exbind_ok] at hok
  obtain ⟨kvs2, h2, hok⟩ := hok
  obtain ⟨hk2, hp2, hstoich2⟩ := reformat_stoichiometry_spec h2
  have hst1 : dictLookup kvs1 (.vstr "stoichiometry") = some stoichC8 := by
    rw [hp1 _ (by decide)]; exact hst
  obtain ⟨t, hflat, hst2⟩ := hstoich2 _ hst1
  have hflatval : flatten_phase_map stoichC8 = .ok stoichC8flat := by rfl
  rw [hflatval] at hflat
  cases hflat
  rw [exbind_ok] at hok
  obtain ⟨d3, h3, hok⟩ := hok
  obtain ⟨kvs3, rfl, hk3, hp3st⟩ :=
    substitute_reaction_preserves (s := "stoichiometry") (by decide) (by decide)
      (by decide) h3
  obtain ⟨kvs3b, heqb, _, hp3nm⟩ :=
    substitute_reaction_preserves (s := "name") (by decide) (by decide)
      (by decide) h3
  injection heqb with e
  subst e
  have hst3 : dictLookup kvs3 (.vstr "stoichiometry") = some (.vdict stoichC8flat) := by
    rw [hp3st]; exact hst2
  have hname1 : dictLookup kvs1 (.vstr "name") = some nm := by
    rw [hp1 _ (by decide)]; exact hname
  have hname2 : dictLookup kvs2 (.vstr "name") = some nm := by
    rw [hp2 _ (by decide)]; exact hname1
  have hname3 : dictLookup kvs3 (.vstr "name") = some nm := by
    rw [hp3nm]; exact hname2
  have hsec3 : dictLookup kvs3 (.vstr "equilibrium_reactions") = none :=
    lookup_none_of_keys_eq ((hk3.trans hk2).trans hk1) hsec
  cases hty : dictLookup kvs3 (.vstr "type") with
  | none =>
    rw [pySubscript] at hok
    simp only [hashable, if_true, hty, error_bind] at hok
    cases hok
  | some rt =>
    rw [pySubscript] at hok
    simp only [hashable, if_true, hty, ok_bind] at hok
    simp only [pyDelItem, hashable, if_true, dictHasKey, hty, Option.isSome_some,
      ok_bind] at hok
    by_cases hrt : rt = .vstr "equilibrium"
    · rw [if_pos hrt] at hok
      have hname4 : dictLookup (dictDel kvs3 (.vstr "type")) (.vstr "name")
          = some nm := by
        rw [dictLookup_dictDel, if_neg (by decide)]; exact hname3
      have hsec4 : dictLookup (dictDel kvs3 (.vstr "type"))
          (.vstr "equilibrium_reactions") = none := by
        rw [dictLookup_dictDel, if_neg (by decide)]; exact hsec3
      rw [wrap_section_fresh "equilibrium_reactions" _ nm hname4 hh hsec4
        (by decide) (by decide)] at hok
      simp only [Except.ok.injEq] at hok
      subst hok
      refine ⟨_, (List.filter (fun kv => !wrap_excluded "equilibrium_reactions" kv.1)
        (dictDel kvs3 (.vstr "type"))), rfl, ?_, ?_⟩
      · rw [dictLookup_append_right]
        · rw [dictLookup, if_pos rfl]
        · have hkp := dictLookup_filter_keypred
            (fun x => wrap_kept "equilibrium_reactions" x)
            (dictDel kvs3 (.vstr "type")) (.vstr "equilibrium_reactions")
          rw [hkp, if_pos (by simp [wrap_kept])]
          exact hsec4
      · have hkp := dictLookup_filter_keypred
          (fun x => !wrap_excluded "equilibrium_reactions" x)
          (dictDel kvs3 (.vstr "type")) (.vstr "stoichiometry")
        rw [hkp, if_pos (by simp [wrap_excluded])]
        rw [dictLookup_dictDel, if_neg (by decide)]
        exact hst3
    · rw [if_neg hrt] at hok
      cases hok

/-- Witness record for C8. -/
def c8kvs : List (Val × Val) :=
  [(.vstr "name", .vstr "H2CO3_Ka2"),
   (.vstr "type", .vstr "equilibrium"),
   (.vstr "stoichiometry", stoichC8)]

/-- Witness for C8 at a concrete reaction record. -/
theorem claim_C8_stoichiometry_round_trip_witness :
    (∃ w sec entry, ReactionConfig.transform (.vdict c8kvs) = .ok w ∧
      w = .vdict sec ∧
      dictLookup sec (.vstr "equilibrium_reactions")
        = some (.vdict [(.vstr "H2CO3_Ka2", .vdict entry)]) ∧
      dictLookup entry (.vstr "stoichiometry") = some (.vdict stoichC8flat)) ∧
    convert_stoichiometry (.vdict stoichC8flat) []
      = .ok [(.vstr "stoichiometry", stoichC8)] := by
  obtain ⟨⟨sec, entry, hw, hs1, hs2⟩, hc⟩ :=
    claim_C8_stoichiometry_round_trip c8kvs (.vstr "H2CO3_Ka2") _
      rfl rfl (by decide) rfl rfl
  exact ⟨⟨_, sec, entry, rfl, hw, hs1, hs2⟩, hc⟩


theorem merge_one_key_fresh (dst src : List (Val × Val)) (key : String) (sv : Val)
    (hs : dictLookup src (.vstr key) = some sv)
    (hd : dictLookup dst (.vstr key) = none) :
    merge_one_key (.vdict dst) (.vdict src) key
      = .ok (.vdict (dictSet dst (.vstr key) sv)) := by
  rw [merge_one_key]
  simp only [pyContains, hashable, if_true, dictHasKey, hs, Option.isSome_some, ok_bind]
  simp only [Bool.true_eq_false, if_false, hd, Option.isSome_none, ok_bind]
  simp only [Bool.false_eq_true, if_false, pySubscript, hashable, if_true, hs,
    ok_bind, pySetItem]

theorem merge_one_key_update (dst src : List (Val × Val)) (key : String)
    (skvs dkvs : List (Val × Val))
    (hs : dictLookup src (.vstr key) = some (.vdict skvs))
    (hd : dictLookup dst (.vstr key) = some (.vdict dkvs)) :
    merge_one_key (.vdict dst) (.vdict src) key
      = .ok (.vdict (dictSet dst (.vstr key) (.vdict (dictUpdate dkvs skvs)))) := by
  rw [merge_one_key]
  simp only [pyContains, hashable, if_true, dictHasKey, hs, Option.isSome_some, ok_bind]
  simp only [Bool.true_eq_false, if_false, hd, Option.isSome_some, if_pos rfl, ok_bind]
  simp only [pySubscript, hashable, if_true, hs, hd, ok_bind, pySetItem]

theorem claim_C2_merge_last_write_wins
    (rb r1 r2 nm e1 e2 : Val)
    (bkvs c1kvs c2kvs : List (Val × Val))
    (hb : BaseConfig.transform rb = .ok (.vdict bkvs))
    (hbnc : dictLookup bkvs (.vstr "components") = none)
    (h1 : ThermoConfig.transform r1 = .ok (.vdict c1kvs))
    (h1c : dictLookup c1kvs (.vstr "components") = some (.vdict [(nm, e1)]))
    (h2 : ThermoConfig.transform r2 = .ok (.vdict c2kvs))
    (h2c : dictLookup c2kvs (.vstr "components") = some (.vdict [(nm, e2)])) :
    ∃ fkvs, Base.idaes_config rb [.comp r1, .comp r2] = .ok (.vdict fkvs) ∧
      dictLookup fkvs (.vstr "components") = some (.vdict [(nm, e2)]) := by
  have step1 : Base.merge (.vdict bkvs) (.comp r1)
      = .ok (.vdict (dictSet bkvs (.vstr "components") (.vdict [(nm, e1)]))) := by
    rw [Base.merge]
    simp only [WrapItem.idaes_config, h1, ok_bind, WrapItem.merge_keys]
    rw [merge_keys_loop, merge_one_key_fresh bkvs c1kvs "components" _ h1c hbnc]
    simp only [ok_bind]
    rw [merge_keys_loop]
  have hd1 : dictLookup (dictSet bkvs (.vstr "components") (.vdict [(nm, e1)]))
      (.vstr "components") = some (.vdict [(nm, e1)]) := dictLookup_dictSet_self _ _ _
  have step2 : Base.merge (.vdict (dictSet bkvs (.vstr "components")
        (.vdict [(nm, e1)]))) (.comp r2)
      = .ok (.vdict (dictSet bkvs (.vstr "components") (.vdict [(nm, e2)]))) := by
    rw [Base.merge]
    simp only [WrapItem.idaes_config, h2, ok_bind, WrapItem.merge_keys]
    rw [merge_keys_loop, merge_one_key_update _ c2kvs "components" [(nm, e2)]
      [(nm, e1)] h2c hd1]
    simp only [ok_bind]
    rw [merge_keys_loop]
    rw [dictSet_dictSet_same]
    have hupd : dictUpdate [(nm, e1)] [(nm, e2)] = [(nm, e2)] := by
      simp [dictUpdate, dictSet]
    rw [hupd]
  rw [Base.idaes_config, hb]
  simp only [ok_bind]
  rw [merge_added, step1]
  simp only [ok_bind]
  rw [merge_added, step2]
  simp only [ok_bind]
  rw [merge_added]
  exact ⟨_, rfl, dictLookup_dictSet_self _ _ _⟩

/-- Witness base record for C2. -/
def c2base : Val := .vdict [(.vstr "name", .vstr "thermo_base"),
  (.vstr "state_definition", .vstr "FTPx")]

/-- First added component record (named `X`). -/
def c2r1 : Val := .vdict [(.vstr "name", .vstr "X"),
  (.vstr "dens_mol_liq_comp", .vstr "Perrys")]

/-- Second added component record (also named `X`, different fields). -/
def c2r2 : Val := .vdict [(.vstr "name", .vstr "X"),
  (.vstr "enth_mol_liq_comp", .vstr "NIST")]

/-- The entry contributed by the second component for name `X`. -/
def c2e2 : Val := .vdict [(.vstr "enth_mol_liq_comp", .vobj "NIST"),
  (.vstr "type", .vobj "IComponent")]

/-- Witness for C2: after adding both components, the merged configuration's
entry for `X` is exactly the second component's entry (the first's
`dens_mol_liq_comp` sibling key is gone). -/
theorem claim_C2_merge_last_write_wins_witness :
    ∃ fkvs, Base.idaes_config c2base [.comp c2r1, .comp c2r2] = .ok (.vdict fkvs) ∧
      dictLookup fkvs (.vstr "components") = some (.vdict [(.vstr "X", c2e2)]) := by
  exact claim_C2_merge_last_write_wins c2base c2r1 c2r2 (.vstr "X")
    (.vdict [(.vstr "dens_mol_liq_comp", .vobj "Perrys"),
             (.vstr "type", .vobj "IComponent")]) c2e2
    [(.vstr "state_definition", .vobj "FTPx")] _ _
    rfl rfl rfl rfl rfl rfl

/-! ### Heap model for `ConfigGenerator.__init__` (data_model.py lines 124-129)

`__init__` deep-copies its input (`copy.deepcopy(data)`) and applies
`_transform` — which mutates dictionaries in place — only to the copy, so
the caller's record is never changed.  To state this aliasing fact we model
Python objects as nodes in an address-indexed heap: containers hold child
addresses, scalars are immutable payloads.  `LayoutV h a v u` says address
`a` of heap `h` holds the decoded value `v` using exactly the addresses `u`;
`allocV` is `copy.deepcopy`, laying the same value out at fresh addresses.
In-place mutation is a store to an address; `_transform` holds a reference
only to the copy, so its stores land at the copy's (or later-allocated
fresh) addresses, all `≥ fresh`. -/

inductive Node where
  | scalarN (v : Val)
  | listN (elems : List Nat)
  | tupleN (elems : List Nat)
  | dictN (kvs : List (Val × Nat))
  deriving Repr, DecidableEq

/-- A heap: finite map from addresses to nodes (first binding wins). -/
abbrev Heap := List (Nat × Node)

/-- Address lookup. -/
def hfind (h : Heap) (a : Nat) : Option Node :=
  match h with
  | [] => none
  | (b, nd) :: rest => if b = a then some nd else hfind rest a

/-- In-place store at an address (no-op position change if absent: append). -/
def hset (h : Heap) (a : Nat) (nd : Node) : Heap :=
  match h with
  | [] => [(a, nd)]
  | (b, nd') :: rest =>
      if b = a then (b, nd) :: rest else (b, nd') :: hset rest a nd

/-- A sequence of in-place stores. -/
def applyWrites (h : Heap) (ws : List (Nat × Node)) : Heap :=
  ws.foldl (fun hh w => hset hh w.1 w.2) h

/-- Scalar (immutable, child-free) Python values. -/
def isScalar : Val → Bool
  | .vlist _ => false
  | .vtuple _ => false
  | .vdict _ => false
  | _ => true

mutual
/-- Address `a` of heap `h` holds value `v`, using address set `u`. -/
inductive LayoutV : Heap → Nat → Val → List Nat → Prop where
  | scal {h : Heap} {a : Nat} {v : Val} :
      hfind h a = some (.scalarN v) → isScalar v = true → LayoutV h a v [a]
  | list {h : Heap} {a : Nat} {addrs : List Nat} {xs : List Val} {u : List Nat} :
      hfind h a = some (.listN addrs) → LayoutL h addrs xs u →
      LayoutV h a (.vlist xs) (a :: u)
  | tup {h : Heap} {a : Nat} {addrs : List Nat} {xs : List Val} {u : List Nat} :
      hfind h a = some (.tupleN addrs) → LayoutL h addrs xs u →
      LayoutV h a (.vtuple xs) (a :: u)
  | dict {h : Heap} {a : Nat} {kns : List (Val × Nat)} {kvs : List (Val × Val)}
      {u : List Nat} :
      hfind h a = some (.dictN kns) → LayoutD h kns kvs u →
      LayoutV h a (.vdict kvs) (a :: u)

/-- Elementwise layout of a list of children. -/
inductive LayoutL : Heap → List Nat → List Val → List Nat → Prop where
  | nil {h : Heap} : LayoutL h [] [] []
  | cons {h : Heap} {a : Nat} {as : List Nat} {v : Val} {vs : List Val}
      {u us : List Nat} :
      LayoutV h a v u → LayoutL h as vs us → LayoutL h (a :: as) (v :: vs) (u ++ us)

/-- Entrywise layout of a dict's children. -/
inductive LayoutD : Heap → List (Val × Nat) → List (Val × Val) → List Nat → Prop where
  | nil {h : Heap} : LayoutD h [] [] []
  | cons {h : Heap} {k : Val} {a : Nat} {kns : List (Val × Nat)} {v : Val}
      {kvs : List (Val × Val)} {u us : List Nat} :
      LayoutV h a v u → LayoutD h kns kvs us →
      LayoutD h ((k, a) :: kns) ((k, v) :: kvs) (u ++ us)
end

mutual
theorem layoutV_mono : ∀ {h : Heap} {a : Nat} {v : Val} {u : List Nat},
    LayoutV h a v u → ∀ {h' : Heap}, (∀ b ∈ u, hfind h' b = hfind h b) →
    LayoutV h' a v u
  | _, _, _, _, .scal hf hs, _, he =>
      .scal (by rw [he _ (List.mem_singleton.mpr rfl)]; exact hf) hs
  | _, _, _, _, .list hf hl, _, he =>
      .list (by rw [he _ (List.mem_cons_self _ _)]; exact hf)
        (layoutL_mono hl (fun b hb => he b (List.mem_cons_of_mem _ hb)))
  | _, _, _, _, .tup hf hl, _, he =>
      .tup (by rw [he _ (List.mem_cons_self _ _)]; exact hf)
        (layoutL_mono hl (fun b hb => he b (List.mem_cons_of_mem _ hb)))
  | _, _, _, _, .dict hf hd, _, he =>
      .dict (by rw [he _ (List.mem_cons_self _ _)]; exact hf)
        (layoutD_mono hd (fun b hb => he b (List.mem_cons_of_mem _ hb)))

theorem layoutL_mono : ∀ {h : Heap} {as : List Nat} {vs : List Val} {u : List Nat},
    LayoutL h as vs u → ∀ {h' : Heap}, (∀ b ∈ u, hfind h' b = hfind h b) →
    LayoutL h' as vs u
  | _, _, _, _, .nil, _, _ => .nil
  | _, _, _, _, .cons hv hl, _, he =>
      .cons (layoutV_mono hv (fun b hb => he b (List.mem_append_left _ hb)))
        (layoutL_mono hl (fun b hb => he b (List.mem_append_right _ hb)))

theorem layoutD_mono : ∀ {h : Heap} {kns : List (Val × Nat)}
    {kvs : List (Val × Val)} {u : List Nat},
    LayoutD h kns kvs u → ∀ {h' : Heap}, (∀ b ∈ u, hfind h' b = hfind h b) →
    LayoutD h' kns kvs u
  | _, _, _, _, .nil, _, _ => .nil
  | _, _, _, _, .cons hv hd, _, he =>
      .cons (layoutV_mono hv (fun b hb => he b (List.mem_append_left _ hb)))
        (layoutD_mono hd (fun b hb => he b (List.mem_append_right _ hb)))
end

mutual
theorem layoutV_used_found : ∀ {h : Heap} {a : Nat} {v : Val} {u : List Nat},
    LayoutV h a v u → ∀ b ∈ u, (hfind h b).isSome = true
  | _, _, _, _, .scal hf _, b, hb => by
      rw [List.mem_singleton.mp hb, hf]; rfl
  | _, _, _, _, .list hf hl, b, hb => by
      rcases List.mem_cons.mp hb with rfl | hb2
      · rw [hf]; rfl
      · exact layoutL_used_found hl b hb2
  | _, _, _, _, .tup hf hl, b, hb => by
      rcases List.mem_cons.mp hb with rfl | hb2
      · rw [hf]; rfl
      · exact layoutL_used_found hl b hb2
  | _, _, _, _, .dict hf hd, b, hb => by
      rcases List.mem_cons.mp hb with rfl | hb2
      · rw [hf]; rfl
      · exact layoutD_used_found hd b hb2

theorem layoutL_used_found : ∀ {h : Heap} {as : List Nat} {vs : List Val}
    {u : List Nat}, LayoutL h as vs u → ∀ b ∈ u, (hfind h b).isSome = true
  | _, _, _, _, .nil, b, hb => absurd hb (List.not_mem_nil b)
  | _, _, _, _, .cons hv hl, b, hb => by
      rcases List.mem_append.mp hb with hb1 | hb2
      · exact layoutV_used_found hv b hb1
      · exact layoutL_used_found hl b hb2

theorem layoutD_used_found : ∀ {h : Heap} {kns : List (Val × Nat)}
    {kvs : List (Val × Val)} {u : List Nat},
    LayoutD h kns kvs u → ∀ b ∈ u, (hfind h b).isSome = true
  | _, _, _, _, .nil, b, hb => absurd hb (List.not_mem_nil b)
  | _, _, _, _, .cons hv hd, b, hb => by
      rcases List.mem_append.mp hb with hb1 | hb2
      · exact layoutV_used_found hv b hb1
      · exact layoutD_used_found hd b hb2
end

/-! `allocV` is `copy.deepcopy`: lay `v` out at fresh addresses starting at
counter `n`; returns (new bindings, root address, next counter). -/
mutual
def allocV : Val → Nat → (List (Nat × Node) × Nat × Nat)
  | .vlist xs, n =>
      let r := allocL xs n
      (r.1 ++ [(r.2.2, .listN r.2.1)], r.2.2, r.2.2 + 1)
  | .vtuple xs, n =>
      let r := allocL xs n
      (r.1 ++ [(r.2.2, .tupleN r.2.1)], r.2.2, r.2.2 + 1)
  | .vdict kvs, n =>
      let r := allocD kvs n
      (r.1 ++ [(r.2.2, .dictN r.2.1)], r.2.2, r.2.2 + 1)
  | v, n => ([(n, .scalarN v)], n, n + 1)

def allocL : List Val → Nat → (List (Nat × Node) × List Nat × Nat)
  | [], n => ([], [], n)
  | x :: xs, n =>
      let r1 := allocV x n
      let r2 := allocL xs r1.2.2
      (r1.1 ++ r2.1, r1.2.1 :: r2.2.1, r2.2.2)

def allocD : List (Val × Val) → Nat → (List (Nat × Node) × List (Val × Nat) × Nat)
  | [], n => ([], [], n)
  | kv :: kvs, n =>
      let r1 := allocV kv.2 n
      let r2 := allocD kvs r1.2.2
      (r1.1 ++ r2.1, (kv.1, r1.2.1) :: r2.2.1, r2.2.2)
end

theorem hfind_append_right_of_absent (l1 l2 : Heap) (b : Nat)
    (h : ∀ p ∈ l1, p.1 ≠ b) : hfind (l1 ++ l2) b = hfind l2 b := by
  induction l1 with
  | nil => rfl
  | cons p rest ih =>
      obtain ⟨c, nd⟩ := p
      show hfind ((c, nd) :: (rest ++ l2)) b = _
      rw [hfind]
      rw [if_neg (h (c, nd) (List.mem_cons_self _ _))]
      exact ih (fun q hq => h q (List.mem_cons_of_mem _ hq))

theorem hfind_none_of_absent (l : Heap) (b : Nat)
    (h : ∀ p ∈ l, p.1 ≠ b) : hfind l b = none := by
  induction l with
  | nil => rfl
  | cons p rest ih =>
      obtain ⟨c, nd⟩ := p
      rw [hfind, if_neg (h (c, nd) (List.mem_cons_self _ _))]
      exact ih (fun q hq => h q (List.mem_cons_of_mem _ hq))

theorem hfind_append_left_of_absent (l1 l2 : Heap) (b : Nat)
    (h : ∀ p ∈ l2, p.1 ≠ b) : hfind (l1 ++ l2) b = hfind l1 b := by
  induction l1 with
  | nil => exact hfind_none_of_absent l2 b h
  | cons p rest ih =>
      obtain ⟨c, nd⟩ := p
      show hfind ((c, nd) :: (rest ++ l2)) b = hfind ((c, nd) :: rest) b
      rw [hfind, hfind]
      by_cases hc : c = b
      · rw [if_pos hc, if_pos hc]
      · rw [if_neg hc, if_neg hc]
        exact ih

theorem hfind_hset_ne (h : Heap) (a b : Nat) (nd : Node) (hne : a ≠ b) :
    hfind (hset h a nd) b = hfind h b := by
  induction h with
  | nil => simp only [hset, hfind, if_neg hne]
  | cons p rest ih =>
      obtain ⟨c, nd'⟩ := p
      rw [hset]
      by_cases hc : c = a
      · rw [if_pos hc]
        subst hc
        rw [hfind, hfind, if_neg hne, if_neg hne]
      · rw [if_neg hc, hfind, hfind]
        by_cases hb : c = b
        · rw [if_pos hb, if_pos hb]
        · rw [if_neg hb, if_neg hb]; exact ih

theorem alloc_scalar_spec (v : Val) (n : Nat) (hs : isScalar v = true)
    (he : allocV v n = ([(n, .scalarN v)], n, n + 1)) :
    n ≤ (allocV v n).2.1 ∧ (allocV v n).2.1 < (allocV v n).2.2 ∧
    (∀ p ∈ (allocV v n).1, n ≤ p.1 ∧ p.1 < (allocV v n).2.2) ∧
    ∃ u, LayoutV (allocV v n).1 (allocV v n).2.1 v u ∧
      ∀ b ∈ u, n ≤ b ∧ b < (allocV v n).2.2 := by
  rw [he]
  refine ⟨Nat.le_refl n, Nat.lt_succ_self n, ?_, [n], ?_, ?_⟩
  · intro p hp
    rw [List.mem_singleton.mp hp]
    exact ⟨Nat.le_refl n, Nat.lt_succ_self n⟩
  · exact .scal (by rw [hfind, if_pos rfl]) hs
  · intro b hb
    rw [List.mem_singleton.mp hb]
    exact ⟨Nat.le_refl n, Nat.lt_succ_self n⟩

mutual
theorem allocV_spec : ∀ (v : Val) (n : Nat),
    n ≤ (allocV v n).2.1 ∧ (allocV v n).2.1 < (allocV v n).2.2 ∧
    (∀ p ∈ (allocV v n).1, n ≤ p.1 ∧ p.1 < (allocV v n).2.2) ∧
    ∃ u, LayoutV (allocV v n).1 (allocV v n).2.1 v u ∧
      ∀ b ∈ u, n ≤ b ∧ b < (allocV v n).2.2
  | .vnone, n => alloc_scalar_spec .vnone n rfl (by simp [allocV])
  | .vstr s, n => alloc_scalar_spec (.vstr s) n rfl (by simp [allocV])
  | .vint i, n => alloc_scalar_spec (.vint i) n rfl (by simp [allocV])
  | .vunit s, n => alloc_scalar_spec (.vunit s) n rfl (by simp [allocV])
  | .vobj t, n => alloc_scalar_spec (.vobj t) n rfl (by simp [allocV])
  | .vlist xs, n => by
      obtain ⟨hn, hbnd, u, hlay, hub⟩ := allocL_spec xs n
      have he : allocV (.vlist xs) n =
          ((allocL xs n).1 ++ [((allocL xs n).2.2, .listN (allocL xs n).2.1)],
           (allocL xs n).2.2, (allocL xs n).2.2 + 1) := by
        simp [allocV]
      rw [he]
      refine ⟨hn, Nat.lt_succ_self _, ?_, (allocL xs n).2.2 :: u, ?_, ?_⟩
      · intro p hp
        rcases List.mem_append.mp hp with h1 | h2
        · obtain ⟨hl, hr2⟩ := hbnd p h1
          exact ⟨hl, Nat.lt_trans hr2 (Nat.lt_succ_self _)⟩
        · rw [List.mem_singleton.mp h2]
          exact ⟨hn, Nat.lt_succ_self _⟩
      · refine @LayoutV.list _ _ (allocL xs n).2.1 _ _ ?_ ?_
        · rw [hfind_append_right_of_absent]
          · rw [hfind, if_pos rfl]
          · intro p hp
            exact Nat.ne_of_lt (hbnd p hp).2
        · refine layoutL_mono hlay ?_
          intro b hb
          rw [hfind_append_left_of_absent]
          intro p hp
          rw [List.mem_singleton.mp hp]
          exact Nat.ne_of_gt (hub b hb).2
      · intro b hb
        rcases List.mem_cons.mp hb with rfl | hb2
        · exact ⟨hn, Nat.lt_succ_self _⟩
        · obtain ⟨h1, h2⟩ := hub b hb2
          exact ⟨h1, Nat.lt_trans h2 (Nat.lt_succ_self _)⟩
  | .vtuple xs, n => by
      obtain ⟨hn, hbnd, u, hlay, hub⟩ := allocL_spec xs n
      have he : allocV (.vtuple xs) n =
          ((allocL xs n).1 ++ [((allocL xs n).2.2, .tupleN (allocL xs n).2.1)],
           (allocL xs n).2.2, (allocL xs n).2.2 + 1) := by
        simp [allocV]
      rw [he]
      refine ⟨hn, Nat.lt_succ_self _, ?_, (allocL xs n).2.2 :: u, ?_, ?_⟩
      · intro p hp
        rcases List.mem_append.mp hp with h1 | h2
        · obtain ⟨hl, hr2⟩ := hbnd p h1
          exact ⟨hl, Nat.lt_trans hr2 (Nat.lt_succ_self _)⟩
        · rw [List.mem_singleton.mp h2]
          exact ⟨hn, Nat.lt_succ_self _⟩
      · refine @LayoutV.tup _ _ (allocL xs n).2.1 _ _ ?_ ?_
        · rw [hfind_append_right_of_absent]
          · rw [hfind, if_pos rfl]
          · intro p hp
            exact Nat.ne_of_lt (hbnd p hp).2
        · refine layoutL_mono hlay ?_
          intro b hb
          rw [hfind_append_left_of_absent]
          intro p hp
          rw [List.mem_singleton.mp hp]
          exact Nat.ne_of_gt (hub b hb).2
      · intro b hb
        rcases List.mem_cons.mp hb with rfl | hb2
        · exact ⟨hn, Nat.lt_succ_self _⟩
        · obtain ⟨h1, h2⟩ := hub b hb2
          exact ⟨h1, Nat.lt_trans h2 (Nat.lt_succ_self _)⟩
  | .vdict kvs, n => by
      obtain ⟨hn, hbnd, u, hlay, hub⟩ := allocD_spec kvs n
      have he : allocV (.vdict kvs) n =
          ((allocD kvs n).1 ++ [((allocD kvs n).2.2, .dictN (allocD kvs n).2.1)],
           (allocD kvs n).2.2, (allocD kvs n).2.2 + 1) := by
        simp [allocV]
      rw [he]
      refine ⟨hn, Nat.lt_succ_self _, ?_, (allocD kvs n).2.2 :: u, ?_, ?_⟩
      · intro p hp
        rcases List.mem_append.mp hp with h1 | h2
        · obtain ⟨hl, hr2⟩ := hbnd p h1
          exact ⟨hl, Nat.lt_trans hr2 (Nat.lt_succ_self _)⟩
        · rw [List.mem_singleton.mp h2]
          exact ⟨hn, Nat.lt_succ_self _⟩
      · refine @LayoutV.dict _ _ (allocD kvs n).2.1 _ _ ?_ ?_
        · rw [hfind_append_right_of_absent]
          · rw [hfind, if_pos rfl]
          · intro p hp
            exact Nat.ne_of_lt (hbnd p hp).2
        · refine layoutD_mono hlay ?_
          intro b hb
          rw [hfind_append_left_of_absent]
          intro p hp
          rw [List.mem_singleton.mp hp]
          exact Nat.ne_of_gt (hub b hb).2
      · intro b hb
        rcases List.mem_cons.mp hb with rfl | hb2
        · exact ⟨hn, Nat.lt_succ_self _⟩
        · obtain ⟨h1, h2⟩ := hub b hb2
          exact ⟨h1, Nat.lt_trans h2 (Nat.lt_succ_self _)⟩

theorem allocL_spec : ∀ (xs : List Val) (n : Nat),
    n ≤ (allocL xs n).2.2 ∧
    (∀ p ∈ (allocL xs n).1, n ≤ p.1 ∧ p.1 < (allocL xs n).2.2) ∧
    ∃ u, LayoutL (allocL xs n).1 (allocL xs n).2.1 xs u ∧
      ∀ b ∈ u, n ≤ b ∧ b < (allocL xs n).2.2
  | [], n => by
      have he : allocL ([] : List Val) n = ([], [], n) := by simp [allocL]
      rw [he]
      exact ⟨Nat.le_refl n, fun p hp => absurd hp (List.not_mem_nil p),
        [], .nil, fun b hb => absurd hb (List.not_mem_nil b)⟩
  | x :: xs, n => by
      obtain ⟨hle1, hlt1, hbnd1, u1, hlay1, hub1⟩ := allocV_spec x n
      obtain ⟨hle2, hbnd2, u2, hlay2, hub2⟩ := allocL_spec xs (allocV x n).2.2
      have hn1 : n ≤ (allocV x n).2.2 := Nat.le_of_lt (Nat.lt_of_le_of_lt hle1 hlt1)
      have he : allocL (x :: xs) n =
          ((allocV x n).1 ++ (allocL xs (allocV x n).2.2).1,
           (allocV x n).2.1 :: (allocL xs (allocV x n).2.2).2.1,
           (allocL xs (allocV x n).2.2).2.2) := by
        simp [allocL]
      rw [he]
      refine ⟨Nat.le_trans hn1 hle2, ?_, u1 ++ u2, ?_, ?_⟩
      · intro p hp
        rcases List.mem_append.mp hp with h1 | h2
        · obtain ⟨ha, hb⟩ := hbnd1 p h1
          exact ⟨ha, Nat.lt_of_lt_of_le hb hle2⟩
        · obtain ⟨ha, hb⟩ := hbnd2 p h2
          exact ⟨Nat.le_trans hn1 ha, hb⟩
      · refine .cons ?_ ?_
        · refine layoutV_mono hlay1 ?_
          intro b hb
          rw [hfind_append_left_of_absent]
          intro p hp
          exact Nat.ne_of_gt (Nat.lt_of_lt_of_le (hub1 b hb).2 (hbnd2 p hp).1)
        · refine layoutL_mono hlay2 ?_
          intro b hb
          rw [hfind_append_right_of_absent]
          intro p hp
          exact Nat.ne_of_lt (Nat.lt_of_lt_of_le (hbnd1 p hp).2 (hub2 b hb).1)
      · intro b hb
        rcases List.mem_append.mp hb with h1 | h2
        · obtain ⟨ha, hc⟩ := hub1 b h1
          exact ⟨ha, Nat.lt_of_lt_of_le hc hle2⟩
        · obtain ⟨ha, hc⟩ := hub2 b h2
          exact ⟨Nat.le_trans hn1 ha, hc⟩

theorem allocD_spec : ∀ (kvs : List (Val × Val)) (n : Nat),
    n ≤ (allocD kvs n).2.2 ∧
    (∀ p ∈ (allocD kvs n).1, n ≤ p.1 ∧ p.1 < (allocD kvs n).2.2) ∧
    ∃ u, LayoutD (allocD kvs n).1 (allocD kvs n).2.1 kvs u ∧
      ∀ b ∈ u, n ≤ b ∧ b < (allocD kvs n).2.2
  | [], n => by
      have he : allocD ([] : List (Val × Val)) n = ([], [], n) := by simp [allocD]
      rw [he]
      exact ⟨Nat.le_refl n, fun p hp => absurd hp (List.not_mem_nil p),
        [], .nil, fun b hb => absurd hb (List.not_mem_nil b)⟩
  | kv :: kvs, n => by
      obtain ⟨hle1, hlt1, hbnd1, u1, hlay1, hub1⟩ := allocV_spec kv.2 n
      obtain ⟨hle2, hbnd2, u2, hlay2, hub2⟩ := allocD_spec kvs (allocV kv.2 n).2.2
      have hn1 : n ≤ (allocV kv.2 n).2.2 := Nat.le_of_lt (Nat.lt_of_le_of_lt hle1 hlt1)
      have he : allocD (kv :: kvs) n =
          ((allocV kv.2 n).1 ++ (allocD kvs (allocV kv.2 n).2.2).1,
           (kv.1, (allocV kv.2 n).2.1) :: (allocD kvs (allocV kv.2 n).2.2).2.1,
           (allocD kvs (allocV kv.2 n).2.2).2.2) := by
        simp [allocD]
      rw [he]
      refine ⟨Nat.le_trans hn1 hle2, ?_, u1 ++ u2, ?_, ?_⟩
      · intro p hp
        rcases List.mem_append.mp hp with h1 | h2
        · obtain ⟨ha, hb⟩ := hbnd1 p h1
          exact ⟨ha, Nat.lt_of_lt_of_le hb hle2⟩
        · obtain ⟨ha, hb⟩ := hbnd2 p h2
          exact ⟨Nat.le_trans hn1 ha, hb⟩
      · refine .cons ?_ ?_
        · refine layoutV_mono hlay1 ?_
          intro b hb
          rw [hfind_append_left_of_absent]
          intro p hp
          exact Nat.ne_of_gt (Nat.lt_of_lt_of_le (hub1 b hb).2 (hbnd2 p hp).1)
        · refine layoutD_mono hlay2 ?_
          intro b hb
          rw [hfind_append_right_of_absent]
          intro p hp
          exact Nat.ne_of_lt (Nat.lt_of_lt_of_le (hbnd1 p hp).2 (hub2 b hb).1)
      · intro b hb
        rcases List.mem_append.mp hb with h1 | h2
        · obtain ⟨ha, hc⟩ := hub1 b h1
          exact ⟨ha, Nat.lt_of_lt_of_le hc hle2⟩
        · obtain ⟨ha, hc⟩ := hub2 b h2
          exact ⟨Nat.le_trans hn1 ha, hc⟩
end

theorem hfind_isSome_lt (h : Heap) (b fresh : Nat)
    (hs : (hfind h b).isSome = true) (hdom : ∀ p ∈ h, p.1 < fresh) :
    b < fresh := by
  induction h with
  | nil => exact absurd hs (by rw [hfind]; intro hc; cases hc)
  | cons p rest ih =>
      obtain ⟨c, nd⟩ := p
      rw [hfind] at hs
      by_cases hc : c = b
      · exact hc ▸ hdom (c, nd) (List.mem_cons_self _ _)
      · rw [if_neg hc] at hs
        exact ih hs (fun q hq => hdom q (List.mem_cons_of_mem _ hq))

theorem layoutV_applyWrites_high (fresh : Nat) (ws : List (Nat × Node))
    (hw : ∀ w ∈ ws, fresh ≤ w.1) :
    ∀ (hh : Heap) (a : Nat) (v : Val) (u : List Nat),
    LayoutV hh a v u → (∀ b ∈ u, b < fresh) →
    LayoutV (applyWrites hh ws) a v u := by
  induction ws with
  | nil => exact fun hh a v u hl _ => hl
  | cons w rest ih =>
      intro hh a v u hl hu
      show LayoutV (applyWrites (hset hh w.1 w.2) rest) a v u
      refine ih (fun q hq => hw q (List.mem_cons_of_mem _ hq))
        (hset hh w.1 w.2) a v u ?_ hu
      refine layoutV_mono hl ?_
      intro b hb
      exact hfind_hset_ne hh w.1 b w.2
        (Nat.ne_of_gt (Nat.lt_of_lt_of_le (hu b hb)
          (hw w (List.mem_cons_self _ _))))

/-- **C9** (frame effect of `ConfigGenerator.__init__`, data_model.py lines
124-129, reached from `DataWrapper.idaes_config` lines 466-476): the
constructor deep-copies its input record before `_transform` mutates
anything.  In the heap model: if the caller's record `v` is laid out at
address `a` using addresses `u`, and the allocation counter `fresh` is
larger than every allocated address, then (1) `copy.deepcopy` re-lays the
same value `v` entirely at fresh addresses, and (2) after any sequence of
in-place stores confined to addresses `≥ fresh` — every mutation
`_transform` performs, since it only ever reaches the copy and
newly-allocated objects — the caller's record still decodes to exactly `v`
at `a`: the original is never mutated. -/
theorem claim_C9_deepcopy_isolates_caller
    (h : Heap) (a : Nat) (v : Val) (u : List Nat) (fresh : Nat)
    (hl : LayoutV h a v u)
    (hdom : ∀ p ∈ h, p.1 < fresh) :
    (∃ uc, LayoutV (h ++ (allocV v fresh).1) (allocV v fresh).2.1 v uc ∧
       ∀ b ∈ uc, fresh ≤ b) ∧
    ∀ ws : List (Nat × Node), (∀ w ∈ ws, fresh ≤ w.1) →
      LayoutV (applyWrites (h ++ (allocV v fresh).1) ws) a v u := by
  have hu_lt : ∀ b ∈ u, b < fresh := fun b hb =>
    hfind_isSome_lt h b fresh (layoutV_used_found hl b hb) hdom
  obtain ⟨_, _, _, uc, hlay, hub⟩ := allocV_spec v fresh
  constructor
  · refine ⟨uc, layoutV_mono hlay ?_, fun b hb => (hub b hb).1⟩
    intro b hb
    exact hfind_append_right_of_absent h _ b
      (fun p hp => Nat.ne_of_lt (Nat.lt_of_lt_of_le (hdom p hp) (hub b hb).1))
  · intro ws hw
    refine layoutV_applyWrites_high fresh ws hw _ a v u ?_ hu_lt
    refine layoutV_mono hl ?_
    intro b hb
    exact hfind_append_left_of_absent h _ b
      (fun p hp => Nat.ne_of_gt (Nat.lt_of_lt_of_le (hu_lt b hb)
        ((allocV_spec v fresh).2.2.1 p hp).1))

def c9heap : Heap := [(0, .scalarN (.vstr "Ca")), (1, .dictN [(.vstr "name", 0)])]

def c9val : Val := .vdict [(.vstr "name", .vstr "Ca")]

theorem claim_C9_deepcopy_isolates_caller_witness :
    (∃ uc, LayoutV (c9heap ++ (allocV c9val 2).1) (allocV c9val 2).2.1 c9val uc ∧
       ∀ b ∈ uc, 2 ≤ b) ∧
    ∀ ws : List (Nat × Node), (∀ w ∈ ws, 2 ≤ w.1) →
      LayoutV (applyWrites (c9heap ++ (allocV c9val 2).1) ws) 1 c9val [1, 0] :=
  claim_C9_deepcopy_isolates_caller c9heap 1 c9val [1, 0] 2
    (.dict (by decide) (.cons (.scal (by decide) (by decide)) .nil))
    (by decide)

/-! ### Component round trip (claim C1 artifacts) -/

/-- `parameter_data` in storable form: each parameter is a one-element list
`[{"v": <int>, "u": <unit string>}]` (the singleton schema shape). -/
def c1ParamIn (entries : List (String × Int × String)) : List (Val × Val) :=
  entries.map (fun e => (Val.vstr e.1,
    Val.vlist [.vdict [(.vstr "v", .vint e.2.1), (.vstr "u", .vstr e.2.2)]]))

/-- The same parameters after forward normalization (lines 184-193): bare
`(value, built-unit)` tuples. -/
def c1ParamMid (entries : List (String × Int × String)) : List (Val × Val) :=
  entries.map (fun e => (Val.vstr e.1, Val.vtuple [.vint e.2.1, .vunit e.2.2]))

/-- Fields of a component record: `name`, optionally `elements`, and
`parameter_data` holding singleton-shaped parameters. -/
def componentFields (nm : String) (elts : Option Val)
    (entries : List (String × Int × String)) : List (Val × Val) :=
  (.vstr "name", .vstr nm) ::
    (match elts with | some e => [(.vstr "elements", e)] | none => []) ++
    [(.vstr "parameter_data", .vdict (c1ParamIn entries))]

/-- A component record of the shape described at `componentFields`. -/
def componentRecord (nm : String) (elts : Option Val)
    (entries : List (String × Int × String)) : Val :=
  .vdict (componentFields nm elts entries)

/-- The IDAES config fragment `ThermoConfig` generates for such a record. -/
def c1cfg (nm : String) (entries : List (String × Int × String)) : Val :=
  .vdict [(.vstr "components", .vdict [(.vstr nm, .vdict
    [(.vstr "parameter_data", .vdict (c1ParamMid entries)),
     (.vstr "type", .vobj "IComponent")])])]

theorem c1_transform_entries (nm : String) :
    ∀ (entries : List (String × Int × String)),
    (∀ e ∈ entries, e.2.2 ≠ "") → (∀ e ∈ entries, e.1 ≠ "reaction_order") →
    transform_parameter_entries nm (c1ParamIn entries) = .ok (c1ParamMid entries)
  | [], _, _ => rfl
  | e :: es, hu, hro => by
      have hk : Val.vstr e.1 ≠ .vstr "reaction_order" := by
        intro hc
        injection hc with hc
        exact hro e (List.mem_cons_self _ _) hc
      have hstep := transform_parameter_entry_single nm (.vstr e.1) hk
        (.vint e.2.1) e.2.2 (hu e (List.mem_cons_self _ _))
      have ih := c1_transform_entries nm es
        (fun x hx => hu x (List.mem_cons_of_mem _ hx))
        (fun x hx => hro x (List.mem_cons_of_mem _ hx))
      show transform_parameter_entries nm
        ((Val.vstr e.1, Val.vlist [.vdict [(.vstr "v", .vint e.2.1),
          (.vstr "u", .vstr e.2.2)]]) :: c1ParamIn es) = _
      rw [transform_parameter_entries, hstep, ih]
      rfl

theorem c1_convert_entries :
    ∀ (entries : List (String × Int × String)),
    convert_parameter_entries "unknown" (c1ParamMid entries) = .ok (c1ParamIn entries)
  | [] => rfl
  | e :: es => by
      have ih := c1_convert_entries es
      show convert_parameter_entries "unknown"
        ((Val.vstr e.1, Val.vtuple [.vint e.2.1, .vunit e.2.2]) :: c1ParamMid es) = _
      rw [convert_parameter_entries, ih]
      rfl

theorem c1_forward (nm : String) (elts : Option Val)
    (entries : List (String × Int × String)) (hne : entries ≠ [])
    (hu : ∀ e ∈ entries, e.2.2 ≠ "") (hro : ∀ e ∈ entries, e.1 ≠ "reaction_order") :
    ThermoConfig.transform (componentRecord nm elts entries) = .ok (c1cfg nm entries) := by
  obtain ⟨e0, es, rfl⟩ : ∃ e0 es, entries = e0 :: es := by
    cases entries with
    | nil => exact absurd rfl hne
    | cons a b => exact ⟨a, b, rfl⟩
  have hent := c1_transform_entries nm (e0 :: es) hu hro
  cases elts with
  | none =>
      have h1 : transform_parameter_data (componentRecord nm none (e0 :: es)) = (do
          let pkvs' ← transform_parameter_entries nm (c1ParamIn (e0 :: es))
          pySetItem (componentRecord nm none (e0 :: es)) (.vstr "parameter_data")
            (.vdict pkvs')) := rfl
      have h2 : transform_parameter_data (componentRecord nm none (e0 :: es)) =
          .ok (.vdict [(.vstr "name", .vstr nm),
            (.vstr "parameter_data", .vdict (c1ParamMid (e0 :: es)))]) := by
        rw [h1, hent]
        rfl
      simp only [ThermoConfig.transform]
      rw [h2]
      simp only [ok_bind]
      show wrap_section "components" (.vdict
        [(.vstr "name", .vstr nm),
         (.vstr "parameter_data", .vdict (c1ParamMid (e0 :: es))),
         (.vstr "type", .vobj "IComponent")]) = .ok (c1cfg nm (e0 :: es))
      rw [wrap_section_fresh "components"
        [(.vstr "name", .vstr nm),
         (.vstr "parameter_data", .vdict (c1ParamMid (e0 :: es))),
         (.vstr "type", .vobj "IComponent")] (.vstr nm) rfl rfl rfl
        (by decide) (by decide)]
      rfl
  | some E =>
      have h1 : transform_parameter_data (componentRecord nm (some E) (e0 :: es)) = (do
          let pkvs' ← transform_parameter_entries nm (c1ParamIn (e0 :: es))
          pySetItem (componentRecord nm (some E) (e0 :: es)) (.vstr "parameter_data")
            (.vdict pkvs')) := rfl
      have h2 : transform_parameter_data (componentRecord nm (some E) (e0 :: es)) =
          .ok (.vdict [(.vstr "name", .vstr nm), (.vstr "elements", E),
            (.vstr "parameter_data", .vdict (c1ParamMid (e0 :: es)))]) := by
        rw [h1, hent]
        rfl
      simp only [ThermoConfig.transform]
      rw [h2]
      simp only [ok_bind]
      show wrap_section "components" (.vdict
        [(.vstr "name", .vstr nm),
         (.vstr "parameter_data", .vdict (c1ParamMid (e0 :: es))),
         (.vstr "type", .vobj "IComponent")]) = .ok (c1cfg nm (e0 :: es))
      rw [wrap_section_fresh "components"
        [(.vstr "name", .vstr nm),
         (.vstr "parameter_data", .vdict (c1ParamMid (e0 :: es))),
         (.vstr "type", .vobj "IComponent")] (.vstr nm) rfl rfl rfl
        (by decide) (by decide)]
      rfl

theorem c1_inverse (nm : String) (entries : List (String × Int × String)) :
    Component.from_idaes_config (c1cfg nm entries) =
      .ok [componentRecord nm none entries] := by
  have hconv := c1_convert_entries entries
  have hentry : component_entry (invert_subst_values thermoSubstituteValues)
      (.vstr nm) (.vdict [(.vstr "parameter_data", .vdict (c1ParamMid entries)),
        (.vstr "type", .vobj "IComponent")]) =
      .ok (.vdict [(.vstr "name", .vstr nm),
        (.vstr "parameter_data", .vdict (c1ParamIn entries))]) := by
    have h0 : component_entry (invert_subst_values thermoSubstituteValues)
        (.vstr nm) (.vdict [(.vstr "parameter_data", .vdict (c1ParamMid entries)),
          (.vstr "type", .vobj "IComponent")]) = (do
        let d ← (do
          let entries' ← convert_parameter_entries "unknown" (c1ParamMid entries)
          pure (dictSet [(Val.vstr "name", Val.vstr nm)] (.vstr "parameter_data")
            (.vdict entries')))
        pure (Val.vdict d)) := rfl
    rw [h0, hconv]
    rfl
  show (do
      let d ← component_entry (invert_subst_values thermoSubstituteValues)
        (.vstr nm) (.vdict [(.vstr "parameter_data", .vdict (c1ParamMid entries)),
          (.vstr "type", .vobj "IComponent")])
      let d ← Component.init d
      let rest' ← component_entries_loop (invert_subst_values thermoSubstituteValues) []
      pure (d :: rest')) = .ok [componentRecord nm none entries]
  rw [hentry]
  rfl

/-- **C1** (corrected): counterexample to the claimed round trip.  For the
well-formed component record `{"name": "Ca", "elements": ["Ca"],
"parameter_data": {"mw": [{"v": 40, "u": "g/mol"}]}}`,
`Component.from_idaes_config(Component(R).idaes_config)` does yield exactly
one Component, but its `json_data` is missing the storable `elements` field
of `R` — `ThermoConfig._transform` deletes `elements` (lines 377-378) and
`Component.from_idaes_config` never reconstructs it — while `elements` is
neither the `reaction_order` parameter nor an identity field, so the claimed
structural equivalence fails. -/
theorem claim_C1_counterexample :
    (do let r ← Component.init (componentRecord "Ca" (some (.vlist [.vstr "Ca"]))
          [("mw", 40, "g/mol")])
        let cfg ← Component.idaes_config r
        Component.from_idaes_config cfg) =
      .ok [componentRecord "Ca" none [("mw", 40, "g/mol")]] ∧
    json_data (componentRecord "Ca" (some (.vlist [.vstr "Ca"])) [("mw", 40, "g/mol")]) =
      .ok (componentRecord "Ca" (some (.vlist [.vstr "Ca"])) [("mw", 40, "g/mol")]) ∧
    dictHasKey (componentFields "Ca" (some (.vlist [.vstr "Ca"])) [("mw", 40, "g/mol")])
      (.vstr "elements") = true ∧
    dictHasKey (componentFields "Ca" none [("mw", 40, "g/mol")])
      (.vstr "elements") = false :=
  ⟨rfl, rfl, rfl, rfl⟩

/-- **C1** (amended): the Component round trip holds once the `elements`
field is also excluded.  For every record with a `name`, an optional
`elements` field, and a nonempty `parameter_data` of singleton-shaped
parameters `[{"v": <int>, "u": <nonempty unit>}]` (none named
`reaction_order`), `Component.from_idaes_config` applied to
`Component(R).idaes_config` yields exactly one Component whose wrapped data
is `R` with `elements` dropped; `json_data` exposes all of `R`'s fields
(there is no `_id`), and dropping `elements` from those storable fields
gives exactly the reconstructed record's fields. -/
theorem claim_C1_amended_component_round_trip (nm : String) (elts : Option Val)
    (entries : List (String × Int × String)) (hne : entries ≠ [])
    (hu : ∀ e ∈ entries, e.2.2 ≠ "") (hro : ∀ e ∈ entries, e.1 ≠ "reaction_order") :
    (do let r ← Component.init (componentRecord nm elts entries)
        let cfg ← Component.idaes_config r
        Component.from_idaes_config cfg) =
      .ok [componentRecord nm none entries] ∧
    json_data (componentRecord nm elts entries) =
      .ok (.vdict (componentFields nm elts entries)) ∧
    dictDel (componentFields nm elts entries) (.vstr "elements") =
      componentFields nm none entries := by
  refine ⟨?_, ?_, ?_⟩
  · have hinit : Component.init (componentRecord nm elts entries) =
        .ok (componentRecord nm elts entries) := by
      cases elts <;> rfl
    rw [hinit]
    simp only [ok_bind, Component.idaes_config]
    rw [c1_forward nm elts entries hne hu hro]
    simp only [ok_bind]
    exact c1_inverse nm entries
  · cases elts <;> rfl
  · cases elts <;> rfl

theorem claim_C1_amended_component_round_trip_witness :
    ((([("mw", (40 : Int), "g/mol")] : List (String × Int × String)) ≠ []) ∧
     (∀ e ∈ ([("mw", (40 : Int), "g/mol")] : List (String × Int × String)),
        e.2.2 ≠ "") ∧
     (∀ e ∈ ([("mw", (40 : Int), "g/mol")] : List (String × Int × String)),
        e.1 ≠ "reaction_order")) ∧
    ((do let r ← Component.init (componentRecord "W" none [("mw", 40, "g/mol")])
         let cfg ← Component.idaes_config r
         Component.from_idaes_config cfg) =
       .ok [componentRecord "W" none [("mw", 40, "g/mol")]] ∧
     json_data (componentRecord "W" none [("mw", 40, "g/mol")]) =
       .ok (.vdict (componentFields "W" none [("mw", 40, "g/mol")])) ∧
     dictDel (componentFields "W" none [("mw", 40, "g/mol")]) (.vstr "elements") =
       componentFields "W" none [("mw", 40, "g/mol")]) :=
  ⟨⟨by decide, by decide, by decide⟩,
   claim_C1_amended_component_round_trip "W" none [("mw", 40, "g/mol")]
     (by decide) (by decide) (by decide)⟩
